import Mathlib

/-!
# gs2-telemetry: access-log to span exporter (`main.go`)

A shallow embedding of `src/main.go` and the properties of it that the
specification states.

Conventions of the embedding

* Go `int64` values are `Int`; where Go arithmetic can overflow the result is
  reduced with `wrap64` (two's complement, as the Go specification prescribes
  for signed integers).  Go's `/` on integers truncates toward zero: `Int.tdiv`.
* A Go pointer field (`*string`, `*int64`) is an `Option`; `none` is `nil`.
  Dereferencing `nil` panics; a function that can panic returns `Option`
  (or records the panic in its outcome) and `none` stands for the panic.
* Calls to collaborators that are not part of this repository (the
  OpenTelemetry tracer, the GS2 log client, the UUID parser, `time`, `fmt`) are
  modelled by the definitions marked as such in their doc comments.
-/

namespace Gs2Telemetry

/-! ## Machine integers -/

/-- Two's-complement reduction of an integer to the `int64` range. -/
def wrap64 (x : Int) : Int := (x + 2 ^ 63) % 2 ^ 64 - 2 ^ 63

/-- The `int64` range. -/
def isInt64 (x : Int) : Prop := -(2 ^ 63) ≤ x ∧ x < 2 ^ 63

instance (x : Int) : Decidable (isInt64 x) := by unfold isInt64; infer_instance

/-! ## `byteCountIEC` (source lines 191-203) -/

/-- The number of low bits that do not fit in the 53-bit significand of a
binary64: how often `b` is halved until it is below `2^53` (`fuel` bounds the
halvings; `b` itself is always enough). -/
def excessBits : Nat → Nat → Nat
  | 0, _ => 0
  | fuel + 1, b => if b < 2 ^ 53 then 0 else excessBits fuel (b / 2) + 1

/-- Go's `float64(b)` for a non-negative integer: the nearest binary64 value,
ties to even.  Every binary64 value of magnitude at least one that arises here
is an integer, so the result is given as that integer.  Below `2^53` the
conversion is exact; from there on `b` keeps its 53 leading bits, rounded. -/
def float64OfNat (b : Nat) : Nat :=
  if b < 2 ^ 53 then b
  else
    let e := excessBits b b
    let q := b / 2 ^ e
    let r := b % 2 ^ e
    let half := 2 ^ (e - 1)
    let q' := if half < r ∨ (r = half ∧ q % 2 = 1) then q + 1 else q
    q' * 2 ^ e

/-- Go's `fmt.Sprintf("%.1f", x)` for the non-negative value `x = num / den`:
the exact value rounded to one fractional digit, ties to even, printed as
integer part, a dot and one digit. -/
def formatF1 (num den : Nat) : String :=
  let t := 10 * num
  let q := t / den
  let r := t % den
  let q' := if den < 2 * r ∨ (2 * r = den ∧ q % 2 = 1) then q + 1 else q
  toString (q' / 10) ++ "." ++ toString (q' % 10)

/-- The loop `for n := b / unit; n >= unit; n /= unit { div *= unit; exp++ }`
of `byteCountIEC`, from the state `(n, div, exp)` to the final `(div, exp)`. -/
def byteCountIEC.loop (n div : Int) (exp : Nat) : Int × Nat :=
  if 1024 ≤ n then byteCountIEC.loop (Int.tdiv n 1024) (wrap64 (div * 1024)) (exp + 1)
  else (div, exp)
termination_by n.toNat
decreasing_by
  rw [Int.tdiv_eq_ediv (by omega) (by omega)]
  omega

/-- The function `byteCountIEC`.  `none` is the run-time panic of an index
`"KMGTPE"[exp]` out of range.  The quotient `float64(b)/float64(div)` is exact
in binary64 whenever `div` is a power of two, which is why it is passed to
`formatF1` as the fraction `float64(b) / div`. -/
def byteCountIEC (b : Int) : Option String :=
  if b < 1024 then some (toString b ++ " B")
  else
    let r := byteCountIEC.loop (Int.tdiv b 1024) 1024 0
    match "KMGTPE".data.get? r.2 with
    | none => none
    | some c => some (formatF1 (float64OfNat b.toNat) r.1.toNat ++ " " ++ String.singleton c ++ "iB")

/-- The byte-count format as the specification words it: below 1024 the decimal
digits of `b` and `" B"`; from 1024 on, `b / 1024^(k+1)` to one decimal place,
a space, the `k`-th letter of `"KMGTPE"` and `"iB"`, for the index `k` with
`1024^(k+1) ≤ b < 1024^(k+2)`.  The quotient is the exact one, rounded to the
nearest tenth (a tie to the even one, as `fmt` does). -/
def byteCountIEC_reference (b : Nat) : Option String :=
  if b < 1024 then some (toString b ++ " B")
  else
    match (List.range 6).find? (fun k => 1024 ^ (k + 1) ≤ b ∧ b < 1024 ^ (k + 2)) with
    | none => none
    | some k =>
      match "KMGTPE".data.get? k with
      | none => none
      | some c => some (formatF1 b (1024 ^ (k + 1)) ++ " " ++ String.singleton c ++ "iB")

/-- The unwrapped products `div * unit` that the loop of `byteCountIEC` forms,
one for each iteration, in order: `div *= unit` overflows exactly when one of
them is outside the `int64` range. -/
def byteCountIEC.products (n div : Int) : List Int :=
  if 1024 ≤ n then
    (div * 1024) :: byteCountIEC.products (Int.tdiv n 1024) (wrap64 (div * 1024))
  else []
termination_by n.toNat
decreasing_by
  rw [Int.tdiv_eq_ediv (by omega) (by omega)]
  omega

/-! ## The UUID parser `uuid.FromString`

`github.com/iris-contrib/go.uuid` is not part of this repository.  The model
follows its `UnmarshalText`: the text is dispatched on its length in bytes
(32 hash-like, 36 canonical, 38 braced, 41 or 45 URN), the hexadecimal groups
are decoded with `encoding/hex` into a UUID that starts as sixteen zero bytes,
and an error leaves the bytes decoded so far in place. -/

/-- The bytes of a Go string (UTF-8). -/
def bytesOf (s : String) : List Nat :=
  s.data.flatMap (fun c => (String.utf8EncodeChar c).map UInt8.toNat)

/-- The value of a hexadecimal digit given as a byte (`encoding/hex`). -/
def fromHexChar (c : Nat) : Option Nat :=
  if 48 ≤ c ∧ c ≤ 57 then some (c - 48)
  else if 97 ≤ c ∧ c ≤ 102 then some (c - 87)
  else if 65 ≤ c ∧ c ≤ 70 then some (c - 55)
  else none

/-- Go's `hex.Decode(dst, src)`: the pairs of digits of `src` are written to
`dst` from the left until an invalid digit is met.  The result is `dst` after
the call and whether decoding succeeded. -/
def hexDecode : List Nat → List Nat → List Nat × Bool
  | dst, [] => (dst, true)
  | d :: dst, p :: q :: src =>
    match fromHexChar p, fromHexChar q with
    | some a, some b => ((a * 16 + b) :: (hexDecode dst src).1, (hexDecode dst src).2)
    | _, _ => (d :: dst, false)
  | dst, _ => (dst, false)

/-- The loop of `decodeCanonical` over the groups of 8, 4, 4, 4 and 12 digits;
every group but the first is preceded by a dash that is skipped. -/
def decodeGroups : List Nat → Bool → List Nat → List Nat → List Nat × Bool
  | [], _, dst, _ => (dst, true)
  | g :: gs, first, dst, src =>
    let src1 := if first then src else src.drop 1
    let r := hexDecode (dst.take (g / 2)) (src1.take g)
    if r.2 then
      (r.1 ++ (decodeGroups gs false (dst.drop (g / 2)) (src1.drop g)).1,
        (decodeGroups gs false (dst.drop (g / 2)) (src1.drop g)).2)
    else (r.1 ++ dst.drop (g / 2), false)

/-- The method `decodeCanonical`, for a text of 36 bytes. -/
def decodeCanonical (u t : List Nat) : List Nat × Bool :=
  if t.get? 8 ≠ some 45 ∨ t.get? 13 ≠ some 45 ∨ t.get? 18 ≠ some 45 ∨ t.get? 23 ≠ some 45 then
    (u, false)
  else decodeGroups [8, 4, 4, 4, 12] true u t

/-- The method `decodeHashLike`, for a text of 32 bytes. -/
def decodeHashLike (u t : List Nat) : List Nat × Bool := hexDecode u t

/-- The method `decodePlain`. -/
def decodePlain (u t : List Nat) : List Nat × Bool :=
  if t.length = 32 then decodeHashLike u t
  else if t.length = 36 then decodeCanonical u t
  else (u, false)

/-- The method `decodeBraced`: the text between `{` and `}`. -/
def decodeBraced (u t : List Nat) : List Nat × Bool :=
  if t.head? ≠ some 123 ∨ t.getLast? ≠ some 125 then (u, false)
  else decodePlain u ((t.drop 1).take (t.length - 2))

/-- The method `decodeURN`: the text after `urn:uuid:`. -/
def decodeURN (u t : List Nat) : List Nat × Bool :=
  if t.take 9 ≠ bytesOf "urn:uuid:" then (u, false)
  else decodePlain u (t.drop 9)

/-- The function `uuid.FromString`: the UUID (sixteen bytes) it returns and
whether it returned no error.  The callers in `main.go` discard the error and
use the UUID. -/
def uuid.FromString (input : String) : List Nat × Bool :=
  let u := List.replicate 16 0
  let t := bytesOf input
  if t.length = 32 then decodeHashLike u t
  else if t.length = 36 then decodeCanonical u t
  else if t.length = 38 then decodeBraced u t
  else if t.length = 41 ∨ t.length = 45 then decodeURN u t
  else (u, false)

/-! ## The package `time`

A `time.Time` without monotonic clock reading is a number of seconds since
January 1 of year 1 (its field `ext`) and a number of nanoseconds within the
second.  A `time.Duration` is an `int64` count of nanoseconds. -/

/-- A value of `time.Time`. -/
structure Time where
  /-- Seconds since January 1, year 1 (an `int64`). -/
  ext : Int
  /-- Nanoseconds within the second, from 0 to 999999999. -/
  nsec : Int
  deriving DecidableEq, Repr

/-- The constant `unixToInternal`: seconds from year 1 to the Unix epoch. -/
def unixToInternal : Int := 62135596800

/-- The function `time.Unix(sec, nsec)`. -/
def time.Unix (sec nsec : Int) : Time :=
  if nsec < 0 ∨ 1000000000 ≤ nsec then
    let n := Int.tdiv nsec 1000000000
    let sec1 := wrap64 (sec + n)
    let nsec1 := wrap64 (nsec - wrap64 (n * 1000000000))
    if nsec1 < 0 then
      { ext := wrap64 (wrap64 (sec1 - 1) + unixToInternal), nsec := wrap64 (nsec1 + 1000000000) }
    else { ext := wrap64 (sec1 + unixToInternal), nsec := nsec1 }
  else { ext := wrap64 (sec + unixToInternal), nsec := nsec }

/-- The function `time.UnixMilli(msec)`, that is
`Unix(msec/1e3, (msec%1e3)*1e6)`. -/
def time.UnixMilli (msec : Int) : Time :=
  time.Unix (Int.tdiv msec 1000) (wrap64 (Int.tmod msec 1000 * 1000000))

/-- The method `addSec` of `time.Time`: the sum saturates at the ends of the
`int64` range. -/
def Time.addSec (t : Time) (d : Int) : Time :=
  let sum := wrap64 (t.ext + d)
  if decide (t.ext < sum) = decide (0 < d) then { t with ext := sum }
  else if 0 < d then { t with ext := 2 ^ 63 - 1 }
  else { t with ext := -(2 ^ 63 - 1) }

/-- The method `Add` of `time.Time`, for a duration `d` in nanoseconds. -/
def Time.Add (t : Time) (d : Int) : Time :=
  let dsec := Int.tdiv d 1000000000
  let nsec := t.nsec + Int.tmod d 1000000000
  if 1000000000 ≤ nsec then
    Time.addSec { t with nsec := nsec - 1000000000 } (dsec + 1)
  else if nsec < 0 then
    Time.addSec { t with nsec := nsec + 1000000000 } (dsec - 1)
  else Time.addSec { t with nsec := nsec } dsec

/-- The constant `time.Millisecond`, in nanoseconds. -/
def time.Millisecond : Int := 1000000

/-- The instant of a `Time` in nanoseconds since the Unix epoch, as an
unbounded integer. -/
def Time.unixNanoExact (t : Time) : Int := (t.ext - unixToInternal) * 1000000000 + t.nsec

/-! ## Records of the GS2 log service (`gs2-golang-sdk/log`) -/

/-- The type `log.AccessLogWithTelemetry`: every field is a pointer. -/
structure AccessLogWithTelemetry where
  Timestamp : Option Int := none
  SourceRequestId : Option String := none
  RequestId : Option String := none
  Duration : Option Int := none
  Service : Option String := none
  Method : Option String := none
  UserId : Option String := none
  Request : Option String := none
  Result : Option String := none
  Status : Option String := none
  deriving DecidableEq, Repr

/-- The type `log.QueryAccessLogWithTelemetryRequest`, with the fields that
`main` sets. -/
structure QueryAccessLogWithTelemetryRequest where
  NamespaceName : Option String
  UserId : Option String
  Begin : Option Int
  End : Option Int
  PageToken : Option String
  Limit : Option Int
  deriving DecidableEq, Repr

/-- The type `log.QueryAccessLogWithTelemetryResult`, with the fields that
`main` reads. -/
structure QueryAccessLogWithTelemetryResult where
  Items : List AccessLogWithTelemetry := []
  NextPageToken : Option String := none
  TotalCount : Option Int := none
  ScanSize : Option Int := none
  deriving DecidableEq, Repr

/-! ## The OpenTelemetry tracer -/

/-- The type `trace.SpanContext`: a trace id of 16 bytes and a span id of 8. -/
structure SpanContext where
  traceID : List Nat
  spanID : List Nat
  deriving DecidableEq, Repr

/-- The type `codes.Code`. -/
inductive Code where
  | Unset
  | Error
  | Ok
  deriving DecidableEq, Repr

/-- A call that `event` makes on the tracer or on the span it started.
`Start parent sc name ts` is `tracer.Start` with the span context `parent` in
the context passed, returning a span whose own span context is `sc` (the ids
come from the ID generator of the provider). -/
inductive SpanOp where
  | Start (parent sc : SpanContext) (name : String) (ts : Time)
  | SetAttributes (key value : String)
  | SetStatus (code : Code) (description : String)
  | End (ts : Time)
  deriving DecidableEq, Repr

/-- Go's conversion of a byte slice to an array of `n` bytes, as in
`trace.TraceID(s)` and `trace.SpanID(s)`: the first `n` bytes.  (It panics on a
slice shorter than `n`; the slices converted in `main.go` have 16 bytes.) -/
def toArray (n : Nat) (s : List Nat) : List Nat := s.take n

/-- The call `make([]byte, n)`: `n` zero bytes. -/
def makeBytes (n : Nat) : List Nat := List.replicate n 0

/-- The method `RequestIdGenerator.NewIDs` (source lines 29-42), on the record
stored in the context under the key `"log"`.  `none` is the panic of
dereferencing a nil `RequestId`. -/
def RequestIdGenerator.NewIDs (v : AccessLogWithTelemetry) : Option (List Nat × List Nat) :=
  let tid :=
    match v.UserId with
    | none => toArray 16 (makeBytes 16)
    | some userId => toArray 16 (uuid.FromString userId).1
  match v.RequestId with
  | none => none
  | some requestId => some (tid, toArray 8 (uuid.FromString requestId).1)

/-- The method `RequestIdGenerator.NewSpanID` (source lines 44-51). -/
def RequestIdGenerator.NewSpanID (v : AccessLogWithTelemetry) (_traceID : List Nat) :
    Option (List Nat) :=
  match v.RequestId with
  | none => none
  | some requestId => some (toArray 8 (uuid.FromString requestId).1)

/-- The ids that `tracer.Start` of the OpenTelemetry SDK gives a new span when
the provider was built with `WithIDGenerator(RequestIdGenerator{})` (source
line 88): with a valid (non-zero) trace id in the parent span context the trace
id is the parent's and the span id comes from `NewSpanID`; otherwise both come
from `NewIDs`.  The span id is never taken from the parent. -/
def tracerStartIDs (v : AccessLogWithTelemetry) (parent : SpanContext) : Option SpanContext :=
  if parent.traceID = makeBytes 16 then
    match RequestIdGenerator.NewIDs v with
    | none => none
    | some ids => some { traceID := ids.1, spanID := ids.2 }
  else
    match RequestIdGenerator.NewSpanID v parent.traceID with
    | none => none
    | some sid => some { traceID := parent.traceID, spanID := sid }

/-! ## `event` (source lines 205-269) -/

/-- A run of `event`: given the calls made so far, the calls made after it and
its result, where `none` is a panic (the dereference of a nil pointer). -/
def SpanM (α : Type) : Type := List SpanOp → List SpanOp × Option α

instance : Monad SpanM where
  pure a := fun ops => (ops, some a)
  bind m f := fun ops =>
    match m ops with
    | (ops1, some a) => f a ops1
    | (ops1, none) => (ops1, none)

/-- The dereference `*p`: a panic when `p` is nil. -/
def deref {α : Type} (p : Option α) : SpanM α := fun ops => (ops, p)

/-- One call on the tracer or the span. -/
def call (op : SpanOp) : SpanM Unit := fun ops => (ops ++ [op], some ())

/-- The closure of source lines 215-221: the trace id put in the span context
that `event` passes to `tracer.Start`. -/
def event.traceID (log : AccessLogWithTelemetry) : List Nat :=
  match log.UserId with
  | none => toArray 16 (makeBytes 16)
  | some userId =>
    if userId = "" then toArray 16 (makeBytes 16)
    else toArray 16 (uuid.FromString userId).1

/-- The closure of source lines 222-228: the span id put in the span context
that `event` passes to `tracer.Start`. -/
def event.spanID (log : AccessLogWithTelemetry) : List Nat :=
  match log.SourceRequestId with
  | none => toArray 8 (makeBytes 8)
  | some sourceRequestId =>
    if sourceRequestId = "" then toArray 8 (makeBytes 8)
    else toArray 8 (uuid.FromString sourceRequestId).1

/-- The function `event`, as the sequence of calls it makes on the tracer and
on the span. -/
def event (log : AccessLogWithTelemetry) : SpanM Unit := do
  let parent : SpanContext := { traceID := event.traceID log, spanID := event.spanID log }
  let method ← deref log.Method
  let timestamp ← deref log.Timestamp
  let sc ← deref (tracerStartIDs log parent)
  call (SpanOp.Start parent sc method (time.UnixMilli timestamp))
  let requestId ← deref log.RequestId
  call (SpanOp.SetAttributes "requestId" requestId)
  call (SpanOp.SetAttributes "userId" (match log.UserId with | none => "" | some userId => userId))
  let service ← deref log.Service
  call (SpanOp.SetAttributes "service" service)
  let method1 ← deref log.Method
  call (SpanOp.SetAttributes "method" method1)
  let request ← deref log.Request
  call (SpanOp.SetAttributes "request" request)
  let result ← deref log.Result
  call (SpanOp.SetAttributes "result" result)
  let status ← deref log.Status
  if status = "ok" then
    call (SpanOp.SetStatus Code.Ok "")
  let status1 ← deref log.Status
  if status1 = "warning" then
    call (SpanOp.SetStatus Code.Error "")
  let timestamp1 ← deref log.Timestamp
  let duration ← deref log.Duration
  call (SpanOp.End (Time.Add (time.UnixMilli timestamp1) (wrap64 (time.Millisecond * duration))))

/-- The calls `event` makes for a record, from no calls made. -/
def eventOps (log : AccessLogWithTelemetry) : List SpanOp := (event log []).1

/-- Whether `event` returns for a record (`false`: it panics). -/
def eventReturns (log : AccessLogWithTelemetry) : Bool := (event log []).2.isSome

/-- The arguments of the `SetStatus` calls among the calls made on a span. -/
def setStatusCalls : List SpanOp → List Code
  | [] => []
  | SpanOp.SetStatus code _ :: ops => code :: setStatusCalls ops
  | _ :: ops => setStatusCalls ops

/-- The numeric value of a `codes.Code`. -/
def Code.rank : Code → Nat
  | Code.Unset => 0
  | Code.Error => 1
  | Code.Ok => 2

/-- The method `SetStatus` of a recording span in the SDK: a status of higher
value than the new code is kept. -/
def setStatus (current code : Code) : Code :=
  if code.rank < current.rank then current else code

/-- The status of a span after the calls made on it; it starts as `Unset`. -/
def spanStatus (ops : List SpanOp) : Code :=
  ops.foldl
    (fun st op =>
      match op with
      | SpanOp.SetStatus code _ => setStatus st code
      | _ => st)
    Code.Unset

/-- The span contexts of the spans started: the one passed to `tracer.Start`
and the one of the span returned. -/
def startedContexts : List SpanOp → List (SpanContext × SpanContext)
  | [] => []
  | SpanOp.Start parent sc _ _ :: ops => (parent, sc) :: startedContexts ops
  | _ :: ops => startedContexts ops

/-- The start timestamps given in the `Start` calls. -/
def startTimes : List SpanOp → List Time
  | [] => []
  | SpanOp.Start _ _ _ ts :: ops => ts :: startTimes ops
  | _ :: ops => startTimes ops

/-- The end timestamps given in the `End` calls. -/
def endTimes : List SpanOp → List Time
  | [] => []
  | SpanOp.End ts :: ops => ts :: endTimes ops
  | _ :: ops => endTimes ops

/-- The identifier derivation as the specification words it (section 4.1), for
the width `n` in bytes: all zero for an absent or empty input, otherwise the
first `n` raw bytes of the UUID parsed from the input; a malformed UUID is
fatal, which is `none`. -/
def deriveId (n : Nat) (input : Option String) : Option (List Nat) :=
  match input with
  | none => some (List.replicate n 0)
  | some s =>
    if s = "" then some (List.replicate n 0)
    else if (uuid.FromString s).2 then some ((uuid.FromString s).1.take n)
    else none

/-- The specification's `deriveTraceId`. -/
def deriveTraceId (userId : Option String) : Option (List Nat) := deriveId 16 userId

/-- The specification's `deriveSpanId`. -/
def deriveSpanId (sourceRequestId : Option String) : Option (List Nat) := deriveId 8 sourceRequestId

/-- The `SetStatus` calls that source lines 262-267 make for a status. -/
def statusOps (status : String) : List SpanOp :=
  (if status = "ok" then [SpanOp.SetStatus Code.Ok ""] else [])
    ++ (if status = "warning" then [SpanOp.SetStatus Code.Error ""] else [])

/-! ### Records used as examples -/

/-- The record of the scenario in section 8 of the specification, completed
with the fields it leaves out. -/
def scenarioLog : AccessLogWithTelemetry :=
  { Timestamp := some 1700000000000, Duration := some 50, Status := some "ok",
    UserId := some "11111111-1111-1111-1111-111111111111",
    SourceRequestId := some "22222222-2222-2222-2222-222222222222",
    RequestId := some "33333333-3333-3333-3333-333333333333",
    Service := some "inventory", Method := some "describe",
    Request := some "", Result := some "" }

/-- A complete record whose `UserId` and `SourceRequestId` are no UUIDs. -/
def malformedLog : AccessLogWithTelemetry :=
  { scenarioLog with UserId := some "not-a-uuid", SourceRequestId := some "zz" }

/-- A complete record without `SourceRequestId`. -/
def rootLog : AccessLogWithTelemetry :=
  { scenarioLog with SourceRequestId := none }

/-- The record `rootLog` with another `RequestId`. -/
def rootLog2 : AccessLogWithTelemetry :=
  { rootLog with RequestId := some "44444444-4444-4444-4444-444444444444" }

/-- A record with status `"ok"` and a nil `Service`. -/
def noServiceLog : AccessLogWithTelemetry :=
  { scenarioLog with Service := none }

/-- A complete record whose `Duration` in nanoseconds exceeds `int64`. -/
def longLog : AccessLogWithTelemetry :=
  { scenarioLog with Timestamp := some 0, Duration := some 9223372036855 }

/-! ## `main` (source lines 96-189) -/

/-- The command-line flags of `main`. -/
structure Flags where
  clientId : String := ""
  secret : String := ""
  region : String := "ap-northeast-1"
  namespaceName : String := ""
  host : String := "localhost"
  port : Int := 4317
  userId : String := ""
  begin : String := ""
  end_ : String := ""

/-- The collaborators of `main`.  The log client has a state of type `σ`; a
call maps the state and the request to the response and the next state, and the
response `none` is an error. -/
structure Env (σ : Type) where
  /-- The call `time.Parse(time.RFC3339, s)` followed by `UnixMilli()`; `none` is
  a parse error. -/
  timeParse : String → Option Int
  /-- Whether `initProvider(host, port)`, which dials the collector, returns
  without error. -/
  initProvider : String → Int → Bool
  /-- Whether `session.Connect()` returns without error. -/
  Connect : Bool
  /-- The method `client.QueryAccessLogWithTelemetry`. -/
  QueryAccessLogWithTelemetry :
    σ → QueryAccessLogWithTelemetryRequest → Option QueryAccessLogWithTelemetryResult × σ
  /-- The state of the log service when `main` starts. -/
  init : σ

/-- What a run of `main` does that can be observed from outside, in order. -/
inductive Action where
  | initProvider (host : String) (port : Int)
  | Connect
  | Query (req : QueryAccessLogWithTelemetryRequest)
      (resp : Option QueryAccessLogWithTelemetryResult)
  | event (log : AccessLogWithTelemetry)
  | println (scanSize : String) (rows : Int)
  | shutdown
  deriving DecidableEq, Repr

/-- How a run ends: `main` returns after its loop ended with the two counters,
it panics (the run aborts), or the model ran out of fuel while the loop was
still going. -/
inductive Outcome where
  | done (scanSize rows : Int)
  | panicked
  | outOfFuel
  deriving DecidableEq, Repr

/-- The loop `for _, item := range result.Items { event(tracer, item) }`: the
calls of `event` made, and whether all of them returned. -/
def eventAll : List AccessLogWithTelemetry → List Action × Bool
  | [] => ([], true)
  | item :: items =>
    if eventReturns item then (Action.event item :: (eventAll items).1, (eventAll items).2)
    else ([Action.event item], false)

/-- The request built in every iteration of the loop (source lines 149-170),
from the parsed time strings and the current page token. -/
def queryRequest (flags : Flags) (b e : Int) (pageToken : Option String) :
    QueryAccessLogWithTelemetryRequest :=
  { NamespaceName := some flags.namespaceName, UserId := some flags.userId,
    Begin := some b, End := some e, PageToken := pageToken, Limit := some 1000 }

/-- The fetch loop of `main` (source lines 147-187) from the state
`(pageToken, scanSize, rows)`, run for at most `fuel` iterations: what it does
and how it ends. -/
def fetchLoop {σ : Type} (env : Env σ) (flags : Flags) :
    Nat → σ → Option String → Int → Int → List Action × Outcome
  | 0, _, _, _, _ => ([], Outcome.outOfFuel)
  | fuel + 1, st, pageToken, scanSize, _rows =>
    match env.timeParse flags.begin with
    | none => ([], Outcome.panicked)
    | some b =>
      match env.timeParse flags.end_ with
      | none => ([], Outcome.panicked)
      | some e =>
        let req := queryRequest flags b e pageToken
        match env.QueryAccessLogWithTelemetry st req with
        | (none, _) => ([Action.Query req none], Outcome.panicked)
        | (some result, st1) =>
          let evs := eventAll result.Items
          if evs.2 then
            match result.ScanSize with
            | none => (Action.Query req (some result) :: evs.1, Outcome.panicked)
            | some size =>
              match result.TotalCount with
              | none => (Action.Query req (some result) :: evs.1, Outcome.panicked)
              | some total =>
                match result.NextPageToken with
                | some token =>
                  let rest := fetchLoop env flags fuel st1 (some token) (wrap64 (scanSize + size)) total
                  (Action.Query req (some result) :: evs.1 ++ rest.1, rest.2)
                | none =>
                  (Action.Query req (some result) :: evs.1, Outcome.done (wrap64 (scanSize + size)) total)
          else (Action.Query req (some result) :: evs.1, Outcome.panicked)

/-- The function `main`, with `fuel` bounding the iterations of its loop.
The `shutdown` it defers runs when `main` returns and when it panics after
the `defer` statement. -/
def main {σ : Type} (env : Env σ) (flags : Flags) (fuel : Nat) : List Action × Outcome :=
  if env.initProvider flags.host flags.port then
    if env.Connect then
      let run := fetchLoop env flags fuel env.init none 0 0
      match run.2 with
      | Outcome.done scanSize rows =>
        match byteCountIEC scanSize with
        | some text =>
          ([Action.initProvider flags.host flags.port, Action.Connect] ++ run.1
            ++ [Action.println text rows, Action.shutdown], Outcome.done scanSize rows)
        | none =>
          ([Action.initProvider flags.host flags.port, Action.Connect] ++ run.1
            ++ [Action.shutdown], Outcome.panicked)
      | Outcome.panicked =>
        ([Action.initProvider flags.host flags.port, Action.Connect] ++ run.1
          ++ [Action.shutdown], Outcome.panicked)
      | Outcome.outOfFuel =>
        ([Action.initProvider flags.host flags.port, Action.Connect] ++ run.1, Outcome.outOfFuel)
    else
      ([Action.initProvider flags.host flags.port, Action.Connect, Action.shutdown],
        Outcome.panicked)
  else ([Action.initProvider flags.host flags.port], Outcome.panicked)

/-- The fetch calls in a run, each with its response. -/
def fetches : List Action →
    List (QueryAccessLogWithTelemetryRequest × Option QueryAccessLogWithTelemetryResult)
  | [] => []
  | Action.Query req resp :: acts => (req, resp) :: fetches acts
  | _ :: acts => fetches acts

/-- The records `event` was called on in a run, in order. -/
def eventCalls : List Action → List AccessLogWithTelemetry
  | [] => []
  | Action.event log :: acts => log :: eventCalls acts
  | _ :: acts => eventCalls acts

/-- The fetch calls of a run follow the cursor: the first is sent with the page
token `token`, and each further one follows a response that carried a page
token and is sent with that token. -/
def FollowsCursor : Option String →
    List (QueryAccessLogWithTelemetryRequest × Option QueryAccessLogWithTelemetryResult) → Prop
  | _, [] => True
  | token, (req, resp) :: rest =>
    req.PageToken = token ∧
      (rest = [] ∨ ∃ result next, resp = some result ∧ result.NextPageToken = some next ∧
        FollowsCursor (some next) rest)

/-- A log client that answers its successive calls with the pages of a list,
whatever the request, and with an error once the list is used up. -/
def stubClient : List QueryAccessLogWithTelemetryResult → QueryAccessLogWithTelemetryRequest →
    Option QueryAccessLogWithTelemetryResult × List QueryAccessLogWithTelemetryResult
  | [], _ => (none, [])
  | page :: pages, _ => (some page, pages)

/-- The `int64` sum of a list, adding from the left as the loop does. -/
def int64Sum (xs : List Int) : Int := xs.foldl (fun acc x => wrap64 (acc + x)) 0

/-- A record has every field that `event` dereferences. -/
def hasRequiredFields (log : AccessLogWithTelemetry) : Bool :=
  log.Method.isSome && log.Timestamp.isSome && log.RequestId.isSome && log.Service.isSome
    && log.Request.isSome && log.Result.isSome && log.Status.isSome && log.Duration.isSome

/-- The log client of `env`, from the state `st`, answers its successive calls
with the pages of a list, whatever the requests. -/
def Answers {σ : Type} (env : Env σ) : σ → List QueryAccessLogWithTelemetryResult → Prop
  | _, [] => True
  | st, page :: pages =>
    ∀ req, (env.QueryAccessLogWithTelemetry st req).1 = some page ∧
      Answers env (env.QueryAccessLogWithTelemetry st req).2 pages

/-- Collaborators for the examples: the collector and the log store accept the
connection, the time strings are parsed by `parse`, and the log client answers
with the pages of a list. -/
def stubEnv (parse : String → Option Int) (pages : List QueryAccessLogWithTelemetryResult) :
    Env (List QueryAccessLogWithTelemetryResult) :=
  { timeParse := parse, initProvider := fun _ _ => true, Connect := true,
    QueryAccessLogWithTelemetry := stubClient, init := pages }

/-- A time parser for the examples that knows one RFC 3339 string and rejects
every other string, the empty one among them. -/
def parseNewYear (s : String) : Option Int :=
  if s = "2024-01-01T00:00:00Z" then some 1704067200000 else none

/-- Flags for the examples, with valid `begin` and `end`. -/
def validFlags : Flags := { begin := "2024-01-01T00:00:00Z", end_ := "2024-01-01T00:00:00Z" }

/-- A first page of two records, with a next page token. -/
def firstPage : QueryAccessLogWithTelemetryResult :=
  { Items := [scenarioLog, rootLog], NextPageToken := some "page-2", TotalCount := some 3,
    ScanSize := some 300 }

/-- A last page of one record. -/
def lastPage : QueryAccessLogWithTelemetryResult :=
  { Items := [rootLog2], NextPageToken := none, TotalCount := some 3, ScanSize := some 200 }

/-- A single page whose first record has no field set. -/
def brokenPage : QueryAccessLogWithTelemetryResult :=
  { Items := [{}, scenarioLog], NextPageToken := none, TotalCount := some 2,
    ScanSize := some 200 }

/-- The flags as they are when none is given on the command line; `begin` and
`end` are empty. -/
def defaultFlags : Flags := {}

/-- The incremental scan sizes of a list of pages. -/
def scanSizes (pages : List QueryAccessLogWithTelemetryResult) : List Int :=
  pages.map (fun p => p.ScanSize.getD 0)

/-! ### Facts about `byteCountIEC` -/

theorem wrap64_of_isInt64 {x : Int} (h : isInt64 x) : wrap64 x = x := by
  unfold isInt64 at h
  unfold wrap64
  omega

/-- Invariant of the loop: started from `div = 1024^(exp+1)` and
`div * n ≤ b < div * (n + 1)` (that is, `n = b / div`) with `1 ≤ n` and `b` an
`int64`, it ends with `div = 1024^(exp+1)` and `div ≤ b < div * 1024`; no
product `div * 1024` it forms leaves the `int64` range. -/
theorem byteCountIEC.loop_spec (b : Int) (hb : b < 2 ^ 63) :
    ∀ (k : Nat) (n div : Int) (exp : Nat), n.toNat ≤ k → 1 ≤ n →
      div = 1024 ^ (exp + 1) → div * n ≤ b → b < div * (n + 1) →
      (byteCountIEC.loop n div exp).1 = 1024 ^ ((byteCountIEC.loop n div exp).2 + 1) ∧
      (byteCountIEC.loop n div exp).1 ≤ b ∧
      b < (byteCountIEC.loop n div exp).1 * 1024 ∧
      exp ≤ (byteCountIEC.loop n div exp).2 := by
  intro k
  induction k with
  | zero => intro n div exp hk hn; omega
  | succ k ih =>
    intro n div exp hk hn hdiv hle hlt
    have hdpos : (0 : Int) < div := by rw [hdiv]; positivity
    rw [byteCountIEC.loop]
    split
    · rename_i h1024
      have hmul : div * 1024 ≤ b := by nlinarith
      have hw : wrap64 (div * 1024) = div * 1024 :=
        wrap64_of_isInt64 ⟨by nlinarith, by omega⟩
      rw [hw, Int.tdiv_eq_ediv (by omega) (by omega)]
      have h1 : 1024 * (n / 1024) ≤ n := by omega
      have h2 : n + 1 ≤ 1024 * (n / 1024 + 1) := by omega
      have hstep := ih (n / 1024) (div * 1024) (exp + 1) (by omega) (by omega)
        (by rw [hdiv]; ring) (by nlinarith) (by nlinarith)
      exact ⟨hstep.1, hstep.2.1, hstep.2.2.1, by omega⟩
    · rename_i h1024
      refine ⟨hdiv, by nlinarith, by nlinarith, le_refl _⟩

/-- The loop as `byteCountIEC` starts it, for an `int64` argument `b ≥ 1024`. -/
theorem byteCountIEC.loop_init (b : Int) (hb : b < 2 ^ 63) (h : 1024 ≤ b) :
    (byteCountIEC.loop (Int.tdiv b 1024) 1024 0).1
        = 1024 ^ ((byteCountIEC.loop (Int.tdiv b 1024) 1024 0).2 + 1) ∧
      (byteCountIEC.loop (Int.tdiv b 1024) 1024 0).1 ≤ b ∧
      b < (byteCountIEC.loop (Int.tdiv b 1024) 1024 0).1 * 1024 := by
  rw [Int.tdiv_eq_ediv (by omega) (by omega)]
  have h := byteCountIEC.loop_spec b hb (b / 1024).toNat (b / 1024) 1024 0 (le_refl _)
    (by omega) (by norm_num) (by omega) (by omega)
  exact ⟨h.1, h.2.1, h.2.2.1⟩

/-- From `1024^(e+1) ≤ b < 2^63` the exponent is at most 5. -/
theorem exp_le_five (b : Int) (hb : b < 2 ^ 63) (e : Nat) (h : (1024 : Int) ^ (e + 1) ≤ b) :
    e ≤ 5 := by
  by_contra hc
  have h6 : 6 ≤ e := by omega
  have : (1024 : Int) ^ (6 + 1) ≤ 1024 ^ (e + 1) :=
    pow_le_pow_right₀ (by norm_num) (by omega)
  have h7 : (1024 : Int) ^ (6 + 1) = 2 ^ 70 := by norm_num
  omega


/-- Go's truncated division by a positive constant, in terms of `/`. -/
theorem tdiv_eq_ite (a c : Int) (hc : 0 < c) :
    Int.tdiv a c = if 0 ≤ a then a / c else -((-a) / c) := by
  split
  · exact Int.tdiv_eq_ediv (by assumption) (le_of_lt hc)
  · have h := Int.neg_tdiv (-a) c
    rw [neg_neg] at h
    rw [h, Int.tdiv_eq_ediv (by omega) (le_of_lt hc)]

/-- Go's remainder by a positive constant, in terms of `%`. -/
theorem tmod_eq_ite (a c : Int) (hc : 0 < c) :
    Int.tmod a c = if 0 ≤ a then a % c else -((-a) % c) := by
  rw [Int.tmod_def, tdiv_eq_ite a c hc]
  split
  · rw [Int.emod_def]
  · rw [Int.emod_def]; ring

/-- The products formed by the loop stay within `int64` (same setting as
`byteCountIEC.loop_spec`). -/
theorem byteCountIEC.products_spec (b : Int) (hb : b < 2 ^ 63) :
    ∀ (k : Nat) (n div : Int), n.toNat ≤ k → 1 ≤ n → 0 < div →
      div * n ≤ b → ∀ p ∈ byteCountIEC.products n div, isInt64 p := by
  intro k
  induction k with
  | zero => intro n div hk hn; omega
  | succ k ih =>
    intro n div hk hn hdpos hle
    rw [byteCountIEC.products]
    split
    · rename_i h1024
      have hmul : div * 1024 ≤ b := by nlinarith
      have hi : isInt64 (div * 1024) := ⟨by nlinarith, by omega⟩
      rw [wrap64_of_isInt64 hi, Int.tdiv_eq_ediv (by omega) (by omega)]
      have h1 : 1024 * (n / 1024) ≤ n := by omega
      intro p hp
      rcases List.mem_cons.1 hp with rfl | hp
      · exact hi
      · exact ih (n / 1024) (div * 1024) (by omega) (by omega) (by positivity) (by nlinarith) p hp
    · intro p hp; simp at hp

/-- The loop ends in the state `(1024^(k+1), k)` for the `k` with
`1024^(k+1) ≤ b < 1024^(k+2)`. -/
theorem byteCountIEC.loop_eq (b : Int) (hb : b < 2 ^ 63) (k : Nat)
    (h1 : (1024 : Int) ^ (k + 1) ≤ b) (h2 : b < 1024 ^ (k + 2)) :
    byteCountIEC.loop (Int.tdiv b 1024) 1024 0 = (1024 ^ (k + 1), k) := by
  have hb1024 : (1024 : Int) ≤ b := by
    have : (1024 : Int) ^ 1 ≤ 1024 ^ (k + 1) := pow_le_pow_right₀ (by norm_num) (by omega)
    omega
  obtain ⟨e1, e2, e3⟩ := byteCountIEC.loop_init b hb hb1024
  generalize byteCountIEC.loop (Int.tdiv b 1024) 1024 0 = r at e1 e2 e3
  obtain ⟨d, e⟩ := r
  simp only at e1 e2 e3
  have hek : e = k := by
    rcases Nat.lt_trichotomy e k with h | h | h
    · exfalso
      have : (1024 : Int) ^ (e + 2) ≤ 1024 ^ (k + 1) := pow_le_pow_right₀ (by norm_num) (by omega)
      have h3 : d * 1024 = 1024 ^ (e + 2) := by rw [e1]; ring
      omega
    · exact h
    · exfalso
      have : (1024 : Int) ^ (k + 2) ≤ 1024 ^ (e + 1) := pow_le_pow_right₀ (by norm_num) (by omega)
      omega
  subst hek
  rw [e1]

/-- Below 1024 the loop of `byteCountIEC`, were it run, would not iterate. -/
theorem byteCountIEC.loop_small (b : Int) (h : b < 1024) :
    byteCountIEC.loop (Int.tdiv b 1024) 1024 0 = (1024, 0) ∧
      byteCountIEC.products (Int.tdiv b 1024) 1024 = [] := by
  have hlt : ¬ (1024 ≤ Int.tdiv b 1024) := by
    rw [tdiv_eq_ite b 1024 (by norm_num)]
    split <;> omega
  rw [byteCountIEC.loop, byteCountIEC.products]
  simp [hlt]

/-- Every index up to 5 is within `"KMGTPE"`. -/
theorem letter_of_le_five (k : Nat) (h : k ≤ 5) : ∃ c, "KMGTPE".data.get? k = some c := by
  interval_cases k <;> exact ⟨_, rfl⟩

/-- Claim C10. For every `int64` value `b`, negative values and `2^63 - 1`
included, the loop of `byteCountIEC` (a total function: it terminates) ends with
`exp ≤ 5`, so that `"KMGTPE"[exp]` is within bounds, and with
`div = 1024^(exp+1) ≤ 2^60`, which is not zero; every product `div * unit` it
forms is within `int64`, so `div *= unit` never overflows; and `byteCountIEC`
returns a string without panicking. -/
theorem byteCountIEC_loop_safe (b : Int) (hb : isInt64 b) :
    (byteCountIEC.loop (Int.tdiv b 1024) 1024 0).2 ≤ 5 ∧
      ("KMGTPE".data.get? (byteCountIEC.loop (Int.tdiv b 1024) 1024 0).2).isSome = true ∧
      (byteCountIEC.loop (Int.tdiv b 1024) 1024 0).1
        = 1024 ^ ((byteCountIEC.loop (Int.tdiv b 1024) 1024 0).2 + 1) ∧
      (byteCountIEC.loop (Int.tdiv b 1024) 1024 0).1 ≤ 2 ^ 60 ∧
      (byteCountIEC.loop (Int.tdiv b 1024) 1024 0).1 ≠ 0 ∧
      (∀ p ∈ byteCountIEC.products (Int.tdiv b 1024) 1024, isInt64 p) ∧
      (byteCountIEC b).isSome = true := by
  by_cases h : 1024 ≤ b
  · obtain ⟨e1, e2, e3⟩ := byteCountIEC.loop_init b hb.2 h
    have hprod : ∀ p ∈ byteCountIEC.products (Int.tdiv b 1024) 1024, isInt64 p := by
      rw [Int.tdiv_eq_ediv (by omega) (by omega)]
      exact byteCountIEC.products_spec b hb.2 (b / 1024).toNat (b / 1024) 1024 (le_refl _)
        (by omega) (by norm_num) (by omega)
    have hsome : (byteCountIEC b).isSome = true := by
      unfold byteCountIEC
      rw [if_neg (by omega)]
      have h5 := exp_le_five b hb.2 _ (e1 ▸ e2)
      obtain ⟨c, hc⟩ := letter_of_le_five _ h5
      simp only [hc, Option.isSome_some]
    generalize byteCountIEC.loop (Int.tdiv b 1024) 1024 0 = r at e1 e2 e3
    obtain ⟨d, e⟩ := r
    simp only at e1 e2 e3 ⊢
    have h5 : e ≤ 5 := exp_le_five b hb.2 e (e1 ▸ e2)
    obtain ⟨c, hc⟩ := letter_of_le_five e h5
    have hle : (1024 : Int) ^ (e + 1) ≤ 1024 ^ (5 + 1) := pow_le_pow_right₀ (by norm_num) (by omega)
    have hpos : (0 : Int) < 1024 ^ (e + 1) := by positivity
    refine ⟨h5, by rw [hc]; rfl, e1, ?_, ?_, hprod, hsome⟩
    · rw [e1]; norm_num at hle ⊢; exact hle
    · rw [e1]; exact ne_of_gt hpos
  · obtain ⟨hl, hp⟩ := byteCountIEC.loop_small b (by omega)
    rw [hl, hp]
    refine ⟨by norm_num, by decide, by norm_num, by norm_num, by norm_num, by simp, ?_⟩
    unfold byteCountIEC
    rw [if_pos (by omega)]
    rfl

/-- Claim C10, witness. The largest `int64`. -/
theorem byteCountIEC_loop_safe_witness :
    isInt64 (2 ^ 63 - 1) ∧ (byteCountIEC.loop (Int.tdiv (2 ^ 63 - 1) 1024) 1024 0).2 ≤ 5 ∧
      (byteCountIEC (2 ^ 63 - 1)).isSome = true :=
  ⟨by decide, (byteCountIEC_loop_safe (2 ^ 63 - 1) (by decide)).1,
    (byteCountIEC_loop_safe (2 ^ 63 - 1) (by decide)).2.2.2.2.2.2⟩

/-- The search of the reference definition finds the index `k`. -/
theorem find_index (n k : Nat) (hk : k ≤ 5) (h1 : 1024 ^ (k + 1) ≤ n) (h2 : n < 1024 ^ (k + 2)) :
    (List.range 6).find? (fun j => decide (1024 ^ (j + 1) ≤ n ∧ n < 1024 ^ (j + 2))) = some k := by
  have hr : List.range 6 = [0, 1, 2, 3, 4, 5] := by decide
  rw [hr]
  interval_cases k <;> norm_num at h1 h2 <;> norm_num [List.find?] <;>
    (repeat' split) <;> simp_all <;> omega

/-- Below `2^53` the conversion to `float64` is exact. -/
theorem float64OfNat_exact (n : Nat) (h : n < 2 ^ 53) : float64OfNat n = n := by
  unfold float64OfNat
  rw [if_pos h]

/-- The result of `byteCountIEC` from 1024 on, for the index `k` with
`1024^(k+1) ≤ b < 1024^(k+2)`. -/
theorem byteCountIEC_of_index (b : Int) (hb : b < 2 ^ 63) (k : Nat) (c : Char)
    (h1 : (1024 : Int) ^ (k + 1) ≤ b) (h2 : b < 1024 ^ (k + 2))
    (hc : "KMGTPE".data.get? k = some c) :
    byteCountIEC b = some (formatF1 (float64OfNat b.toNat) (1024 ^ (k + 1)) ++ " "
      ++ String.singleton c ++ "iB") := by
  have hb1024 : (1024 : Int) ≤ b := by
    have : (1024 : Int) ^ 1 ≤ 1024 ^ (k + 1) := pow_le_pow_right₀ (by norm_num) (by omega)
    omega
  unfold byteCountIEC
  rw [if_neg (by omega), byteCountIEC.loop_eq b hb k h1 h2]
  have hcast : ((1024 : Int) ^ (k + 1)).toNat = 1024 ^ (k + 1) := by
    have : ((1024 : Int) ^ (k + 1)) = ((1024 ^ (k + 1) : Nat) : Int) := by push_cast; rfl
    rw [this, Int.toNat_natCast]
  simp only [hc, hcast]

/-- The index `k` with `1024^(k+1) ≤ b < 1024^(k+2)` is unique. -/
theorem index_unique (b : Int) (j k : Nat)
    (hj1 : (1024 : Int) ^ (j + 1) ≤ b) (hj2 : b < 1024 ^ (j + 2))
    (hk1 : (1024 : Int) ^ (k + 1) ≤ b) (hk2 : b < 1024 ^ (k + 2)) : j = k := by
  rcases Nat.lt_trichotomy j k with h | h | h
  · exfalso
    have : (1024 : Int) ^ (j + 2) ≤ 1024 ^ (k + 1) := pow_le_pow_right₀ (by norm_num) (by omega)
    omega
  · exact h
  · exfalso
    have : (1024 : Int) ^ (k + 2) ≤ 1024 ^ (j + 1) := pow_le_pow_right₀ (by norm_num) (by omega)
    omega

/-- From 1024 on, an `int64` has its index `k ≤ 5` with
`1024^(k+1) ≤ b < 1024^(k+2)`. -/
theorem exists_index (b : Int) (hb : b < 2 ^ 63) (h : 1024 ≤ b) :
    ∃ k, k ≤ 5 ∧ (1024 : Int) ^ (k + 1) ≤ b ∧ b < 1024 ^ (k + 2) := by
  obtain ⟨e1, e2, e3⟩ := byteCountIEC.loop_init b hb h
  refine ⟨(byteCountIEC.loop (Int.tdiv b 1024) 1024 0).2, ?_, ?_, ?_⟩
  · exact exp_le_five b hb _ (e1 ▸ e2)
  · exact e1 ▸ e2
  · have : (byteCountIEC.loop (Int.tdiv b 1024) 1024 0).1 * 1024
        = 1024 ^ ((byteCountIEC.loop (Int.tdiv b 1024) 1024 0).2 + 2) := by
      rw [e1]; ring
    rw [← this]; exact e3

/-- Claim C9, counterexample. At `b = 1210567579837189324` the exact quotient
`b / 1024^6` is below 1.05, so to one decimal place it is `1.0` and the format
as the specification words it is `"1.0 EiB"`; `byteCountIEC` returns
`"1.1 EiB"`, because `float64(b)` is `1210567579837189376`, whose quotient is
above 1.05. -/
theorem byteCountIEC_reference_differs :
    byteCountIEC 1210567579837189324 = some "1.1 EiB" ∧
      byteCountIEC_reference 1210567579837189324 = some "1.0 EiB" ∧
      (1210567579837189324 : Int) * 100 < 105 * 1024 ^ 6 ∧
      105 * 1024 ^ 6 < float64OfNat 1210567579837189324 * 100 := by
  refine ⟨?_, by decide, by norm_num, by decide⟩
  rw [byteCountIEC_of_index 1210567579837189324 (by norm_num) 5 'E' (by norm_num) (by norm_num)
    (by decide)]
  decide

/-- Claim C9, amended. For every `int64` value `b`: if `0 ≤ b < 1024` the result
is the decimal digits of `b` followed by `" B"`; if `b ≥ 1024` there is the
index `k ≤ 5` with `1024^(k+1) ≤ b < 1024^(k+2)` and the result is
`float64(b) / 1024^(k+1)` rounded to one decimal place (ties to even), a space,
the `k`-th letter of `"KMGTPE"` and `"iB"`; and for `0 ≤ b < 2^53`, where
`float64(b)` is `b`, the result is the format as the specification words it. -/
theorem byteCountIEC_format (b : Int) (hb : isInt64 b) :
    (0 ≤ b → b < 1024 → byteCountIEC b = some (toString b.toNat ++ " B")) ∧
      (1024 ≤ b → ∃ k c, k ≤ 5 ∧ (1024 : Int) ^ (k + 1) ≤ b ∧ b < 1024 ^ (k + 2) ∧
        (∀ j : Nat, (1024 : Int) ^ (j + 1) ≤ b → b < 1024 ^ (j + 2) → j = k) ∧
        "KMGTPE".data.get? k = some c ∧
        byteCountIEC b = some (formatF1 (float64OfNat b.toNat) (1024 ^ (k + 1)) ++ " "
          ++ String.singleton c ++ "iB")) ∧
      (0 ≤ b → b < 2 ^ 53 → byteCountIEC b = byteCountIEC_reference b.toNat) := by
  have hsmall : 0 ≤ b → b < 1024 → byteCountIEC b = some (toString b.toNat ++ " B") := by
    intro h0 h1
    unfold byteCountIEC
    rw [if_pos h1]
    obtain ⟨n, rfl⟩ := Int.eq_ofNat_of_zero_le h0
    rfl
  have hbig : 1024 ≤ b → ∃ k c, k ≤ 5 ∧ (1024 : Int) ^ (k + 1) ≤ b ∧ b < 1024 ^ (k + 2) ∧
      (∀ j : Nat, (1024 : Int) ^ (j + 1) ≤ b → b < 1024 ^ (j + 2) → j = k) ∧
      "KMGTPE".data.get? k = some c ∧
      byteCountIEC b = some (formatF1 (float64OfNat b.toNat) (1024 ^ (k + 1)) ++ " "
        ++ String.singleton c ++ "iB") := by
    intro h
    obtain ⟨k, hk, h1, h2⟩ := exists_index b hb.2 h
    obtain ⟨c, hc⟩ := letter_of_le_five k hk
    exact ⟨k, c, hk, h1, h2, fun j hj1 hj2 => index_unique b j k hj1 hj2 h1 h2, hc,
      byteCountIEC_of_index b hb.2 k c h1 h2 hc⟩
  refine ⟨hsmall, hbig, ?_⟩
  intro h0 h53
  by_cases h : b < 1024
  · rw [hsmall h0 h]
    unfold byteCountIEC_reference
    rw [if_pos (by omega)]
  · obtain ⟨k, c, hk, h1, h2, _, hc, heq⟩ := hbig (by omega)
    rw [heq, float64OfNat_exact _ (by omega)]
    unfold byteCountIEC_reference
    rw [if_neg (by omega)]
    have h1n : 1024 ^ (k + 1) ≤ b.toNat := by
      have : ((1024 ^ (k + 1) : Nat) : Int) ≤ b := by push_cast; exact h1
      omega
    have h2n : b.toNat < 1024 ^ (k + 2) := by
      have : b < ((1024 ^ (k + 2) : Nat) : Int) := by push_cast; exact h2
      omega
    rw [find_index b.toNat k hk h1n h2n]
    simp only [hc]

/-- Claim C9, witness. An instance: the four values the specification
lists. -/
theorem byteCountIEC_format_witness :
    byteCountIEC 0 = some "0 B" ∧ byteCountIEC 1023 = some "1023 B" ∧
      byteCountIEC 1024 = some "1.0 KiB" ∧ byteCountIEC 1048576 = some "1.0 MiB" :=
  ⟨((byteCountIEC_format 0 (by decide)).2.2 (by decide) (by decide)).trans (by decide),
    ((byteCountIEC_format 1023 (by decide)).2.2 (by decide) (by decide)).trans (by decide),
    ((byteCountIEC_format 1024 (by decide)).2.2 (by decide) (by decide)).trans (by decide),
    ((byteCountIEC_format 1048576 (by decide)).2.2 (by decide) (by decide)).trans (by decide)⟩

/-! ### Facts about `uuid.FromString` -/

/-- Decoding keeps the length of the destination. -/
theorem hexDecode_length (dst src : List Nat) : (hexDecode dst src).1.length = dst.length := by
  induction dst, src using hexDecode.induct with
  | case1 dst => simp [hexDecode]
  | case2 d dst p q src a b ha hb ih => simp [hexDecode, ha, hb, ih]
  | case3 d dst p q src h =>
    rw [hexDecode]
    split
    · rename_i a b ha hb; exact absurd hb (h a b ha)
    · rfl
  | case4 dst src h1 h2 =>
    rw [hexDecode]
    · exact h1
    · exact h2

theorem decodeGroups_length (gs : List Nat) :
    ∀ (first : Bool) (dst src : List Nat), (decodeGroups gs first dst src).1.length = dst.length := by
  induction gs with
  | nil => intro first dst src; simp [decodeGroups]
  | cons g gs ih =>
    intro first dst src
    simp only [decodeGroups]
    split_ifs <;>
      simp only [List.length_append, hexDecode_length, ih, List.length_take, List.length_drop] <;>
      omega

theorem decodeCanonical_length (u t : List Nat) : (decodeCanonical u t).1.length = u.length := by
  unfold decodeCanonical
  split
  · rfl
  · exact decodeGroups_length _ _ _ _

theorem decodePlain_length (u t : List Nat) : (decodePlain u t).1.length = u.length := by
  unfold decodePlain decodeHashLike
  split
  · exact hexDecode_length _ _
  · split
    · exact decodeCanonical_length _ _
    · rfl

/-- The UUID that `uuid.FromString` returns has sixteen bytes, error or not. -/
theorem uuid.FromString_length (input : String) : (uuid.FromString input).1.length = 16 := by
  unfold uuid.FromString decodeHashLike decodeBraced decodeURN
  simp only
  split
  · rw [hexDecode_length]; rfl
  · split
    · rw [decodeCanonical_length]; rfl
    · split
      · split
        · rfl
        · rw [decodePlain_length]; rfl
      · split
        · split
          · rfl
          · rw [decodePlain_length]; rfl
        · rfl

/-- The conversion to an array of sixteen bytes keeps the whole UUID. -/
theorem toArray_FromString (input : String) :
    toArray 16 (uuid.FromString input).1 = (uuid.FromString input).1 := by
  unfold toArray
  exact List.take_of_length_le (le_of_eq (uuid.FromString_length input))

/-! ### Facts about `event` -/

/-- The ids that the tracer gives the span of a record with a `RequestId`: the
trace id is the one `event` derived from `UserId`, the span id is made of the
first eight bytes of the UUID parsed from `RequestId`. -/
theorem tracerStartIDs_spec (log : AccessLogWithTelemetry) (sid : List Nat) (requestId : String)
    (h : log.RequestId = some requestId) :
    tracerStartIDs log { traceID := event.traceID log, spanID := sid }
      = some { traceID := event.traceID log,
               spanID := toArray 8 (uuid.FromString requestId).1 } := by
  unfold tracerStartIDs RequestIdGenerator.NewIDs RequestIdGenerator.NewSpanID
  simp only [h]
  split
  · rename_i hz
    unfold event.traceID at hz ⊢
    cases hu : log.UserId with
    | none => rfl
    | some u =>
      simp only [hu] at hz ⊢
      by_cases he : u = ""
      · subst he
        have hempty : toArray 16 (uuid.FromString "").1 = toArray 16 (makeBytes 16) := by decide
        simp only [hempty, if_true]
      · simp only [if_neg he]
  · rfl

/-- Without a `RequestId` the ID generator panics. -/
theorem tracerStartIDs_none (log : AccessLogWithTelemetry) (parent : SpanContext)
    (h : log.RequestId = none) : tracerStartIDs log parent = none := by
  unfold tracerStartIDs RequestIdGenerator.NewIDs RequestIdGenerator.NewSpanID
  simp only [h]
  split <;> rfl

/-- The calls `event` makes for a record that has the fields dereferenced up to
the status statements. -/
theorem event_to_status (log : AccessLogWithTelemetry)
    (method requestId service request result status : String) (timestamp : Int)
    (h1 : log.Method = some method) (h2 : log.Timestamp = some timestamp)
    (h3 : log.RequestId = some requestId) (h4 : log.Service = some service)
    (h5 : log.Request = some request) (h6 : log.Result = some result)
    (h7 : log.Status = some status) :
    event log [] =
      ([SpanOp.Start { traceID := event.traceID log, spanID := event.spanID log }
            { traceID := event.traceID log, spanID := toArray 8 (uuid.FromString requestId).1 }
            method (time.UnixMilli timestamp),
          SpanOp.SetAttributes "requestId" requestId,
          SpanOp.SetAttributes "userId" (match log.UserId with | none => "" | some userId => userId),
          SpanOp.SetAttributes "service" service,
          SpanOp.SetAttributes "method" method,
          SpanOp.SetAttributes "request" request,
          SpanOp.SetAttributes "result" result]
        ++ statusOps status
        ++ (match log.Duration with
            | none => []
            | some duration =>
              [SpanOp.End (Time.Add (time.UnixMilli timestamp)
                (wrap64 (time.Millisecond * duration)))]),
        log.Duration.map (fun _ => ())) := by
  have h9 := tracerStartIDs_spec log (event.spanID log) requestId h3
  cases h8 : log.Duration with
  | none =>
    simp only [event, bind, pure, deref, call, h1, h2, h3, h4, h5, h6, h7, h8, h9, statusOps]
    split_ifs <;> simp_all
  | some duration =>
    simp only [event, bind, pure, deref, call, h1, h2, h3, h4, h5, h6, h7, h8, h9, statusOps]
    split_ifs <;> simp_all

/-- The function `event` returns exactly for the records that have every field
it dereferences; whether `UserId` and `SourceRequestId` are well-formed UUIDs
plays no part. -/
theorem eventReturns_eq (log : AccessLogWithTelemetry) :
    eventReturns log = hasRequiredFields log := by
  unfold eventReturns hasRequiredFields
  cases h1 : log.Method with
  | none => simp [event, bind, deref, h1]
  | some method =>
  cases h2 : log.Timestamp with
  | none => simp [event, bind, deref, h1, h2]
  | some timestamp =>
  cases h3 : log.RequestId with
  | none =>
    simp [event, bind, deref, h1, h2, tracerStartIDs_none log _ h3]
  | some requestId =>
  have h9 := tracerStartIDs_spec log (event.spanID log) requestId h3
  cases h4 : log.Service with
  | none => simp [event, bind, deref, call, h1, h2, h3, h4, h9]
  | some service =>
  cases h5 : log.Request with
  | none => simp [event, bind, deref, call, h1, h2, h3, h4, h5, h9]
  | some request =>
  cases h6 : log.Result with
  | none => simp [event, bind, deref, call, h1, h2, h3, h4, h5, h6, h9]
  | some result =>
  cases h7 : log.Status with
  | none => simp [event, bind, deref, call, h1, h2, h3, h4, h5, h6, h7, h9]
  | some status =>
  rw [event_to_status log method requestId service request result status timestamp
    h1 h2 h3 h4 h5 h6 h7]
  cases h8 : log.Duration <;> simp

/-! ### Facts about the timestamps -/

theorem wrap64_eq {x : Int} (h0 : -(2 ^ 63) ≤ x) (h1 : x < 2 ^ 63) : wrap64 x = x :=
  wrap64_of_isInt64 ⟨h0, h1⟩

/-- The time `time.UnixMilli(msec)` is `msec` milliseconds after the epoch. -/
theorem UnixMilli_spec (msec : Int) (h : isInt64 msec) :
    0 ≤ (time.UnixMilli msec).nsec ∧ (time.UnixMilli msec).nsec < 1000000000 ∧
      -(2 ^ 62) ≤ (time.UnixMilli msec).ext ∧ (time.UnixMilli msec).ext < 2 ^ 62 ∧
      (time.UnixMilli msec).unixNanoExact = msec * 1000000 := by
  unfold isInt64 at h
  have hq := tdiv_eq_ite msec 1000 (by norm_num)
  have hm := tmod_eq_ite msec 1000 (by norm_num)
  unfold time.UnixMilli
  generalize Int.tdiv msec 1000 = q at hq
  generalize Int.tmod msec 1000 = m at hm
  have hm0 : -999 ≤ m ∧ m ≤ 999 ∧ msec = 1000 * q + m ∧ (0 ≤ msec → 0 ≤ m) ∧ (msec < 0 → m ≤ 0) := by
    split_ifs at hq hm <;> omega
  obtain ⟨hm1, hm2, hm3, hm4, hm5⟩ := hm0
  have hq0 : -(2 ^ 54) ≤ q ∧ q < 2 ^ 54 := by omega
  rw [wrap64_eq (by omega) (by omega)]
  unfold time.Unix Time.unixNanoExact unixToInternal
  by_cases hneg : m < 0
  · have hn : Int.tdiv (m * 1000000) 1000000000 = 0 := by
      rw [tdiv_eq_ite _ 1000000000 (by norm_num), if_neg (by omega)]
      omega
    rw [if_pos (Or.inl (by omega)), hn]
    simp only [zero_mul, add_zero]
    have hw0 : wrap64 0 = 0 := by decide
    rw [hw0, sub_zero, wrap64_eq (x := q) (by omega) (by omega),
      wrap64_eq (x := m * 1000000) (by omega) (by omega), if_pos (by omega),
      wrap64_eq (x := q - 1) (by omega) (by omega),
      wrap64_eq (x := q - 1 + 62135596800) (by omega) (by omega),
      wrap64_eq (x := m * 1000000 + 1000000000) (by omega) (by omega)]
    simp only
    omega
  · rw [if_neg (by omega), wrap64_eq (x := q + 62135596800) (by omega) (by omega)]
    simp only
    omega

/-- Adding a duration moves the instant by that duration, as long as the
seconds stay within `int64`. -/
theorem Add_spec (t : Time) (d : Int)
    (he0 : -(2 ^ 62) ≤ t.ext) (he1 : t.ext < 2 ^ 62) (hd : isInt64 d) :
    (Time.Add t d).unixNanoExact = t.unixNanoExact + d := by
  unfold isInt64 at hd
  have hq := tdiv_eq_ite d 1000000000 (by norm_num)
  have hm := tmod_eq_ite d 1000000000 (by norm_num)
  unfold Time.Add
  generalize Int.tdiv d 1000000000 = q at hq
  generalize Int.tmod d 1000000000 = m at hm
  have hm0 : -999999999 ≤ m ∧ m ≤ 999999999 ∧ d = 1000000000 * q + m := by
    split_ifs at hq hm <;> omega
  obtain ⟨hm1, hm2, hm3⟩ := hm0
  have hq0 : -(2 ^ 34) ≤ q ∧ q < 2 ^ 34 := by omega
  have hadd : ∀ (n e : Int), -(2 ^ 35) ≤ e → e < 2 ^ 35 →
      Time.addSec { ext := t.ext, nsec := n } e = { ext := t.ext + e, nsec := n } := by
    intro n e h0 h1
    unfold Time.addSec
    simp only
    rw [wrap64_eq (x := t.ext + e) (by omega) (by omega)]
    simp only [decide_eq_decide]
    rw [if_pos (by constructor <;> intro <;> omega)]
  unfold Time.unixNanoExact unixToInternal
  simp only
  split_ifs
  · rw [hadd _ _ (by omega) (by omega)]; simp only; omega
  · rw [hadd _ _ (by omega) (by omega)]; simp only; omega
  · rw [hadd _ _ (by omega) (by omega)]; simp only; omega

/-! ### The claims about `event` -/

/-- The span contexts of the one span `event` starts, if it starts one. -/
theorem startedContexts_eventOps (log : AccessLogWithTelemetry) :
    startedContexts (eventOps log) = [] ∨
      ∃ requestId, log.RequestId = some requestId ∧
        startedContexts (eventOps log) =
          [({ traceID := event.traceID log, spanID := event.spanID log },
            { traceID := event.traceID log,
              spanID := toArray 8 (uuid.FromString requestId).1 })] := by
  unfold eventOps
  cases h1 : log.Method with
  | none => left; simp [event, bind, deref, h1, startedContexts]
  | some method =>
  cases h2 : log.Timestamp with
  | none => left; simp [event, bind, deref, h1, h2, startedContexts]
  | some timestamp =>
  cases h3 : log.RequestId with
  | none => left; simp [event, bind, deref, h1, h2, tracerStartIDs_none log _ h3, startedContexts]
  | some requestId =>
  right
  refine ⟨requestId, rfl, ?_⟩
  have h9 := tracerStartIDs_spec log (event.spanID log) requestId h3
  cases h4 : log.Service with
  | none => simp [event, bind, deref, call, h1, h2, h3, h4, h9, startedContexts]
  | some service =>
  cases h5 : log.Request with
  | none => simp [event, bind, deref, call, h1, h2, h3, h4, h5, h9, startedContexts]
  | some request =>
  cases h6 : log.Result with
  | none => simp [event, bind, deref, call, h1, h2, h3, h4, h5, h6, h9, startedContexts]
  | some result =>
  cases h7 : log.Status with
  | none => simp [event, bind, deref, call, h1, h2, h3, h4, h5, h6, h7, h9, startedContexts]
  | some status =>
  rw [event_to_status log method requestId service request result status timestamp
    h1 h2 h3 h4 h5 h6 h7]
  cases h8 : log.Duration <;> simp only [statusOps] <;> split_ifs <;> simp [startedContexts]

/-- Claim C2. The identifier derivation in `event` agrees with the reference
one wherever that is defined; for every record the trace id is sixteen
zero bytes when `UserId` is nil or empty and otherwise the sixteen bytes of the
UUID that `uuid.FromString` returns for `UserId`, the span id is eight zero
bytes when `SourceRequestId` is nil or empty and otherwise the first eight bytes
of the UUID returned for `SourceRequestId`; and these are the ids of the span
context that `event` passes to `tracer.Start`. -/
theorem event_ids_eq_reference (log : AccessLogWithTelemetry) :
    (∀ t, deriveTraceId log.UserId = some t → event.traceID log = t) ∧
      (∀ s, deriveSpanId log.SourceRequestId = some s → event.spanID log = s) ∧
      (log.UserId = none ∨ log.UserId = some "" → event.traceID log = List.replicate 16 0) ∧
      (∀ u, log.UserId = some u → u ≠ "" → event.traceID log = (uuid.FromString u).1) ∧
      (log.SourceRequestId = none ∨ log.SourceRequestId = some "" →
        event.spanID log = List.replicate 8 0) ∧
      (∀ r, log.SourceRequestId = some r → r ≠ "" →
        event.spanID log = (uuid.FromString r).1.take 8) ∧
      (event.traceID log).length = 16 ∧ (event.spanID log).length = 8 ∧
      (∀ parent sc, (parent, sc) ∈ startedContexts (eventOps log) →
        parent = { traceID := event.traceID log, spanID := event.spanID log }) := by
  have hz16 : toArray 16 (makeBytes 16) = List.replicate 16 0 := by decide
  have hz8 : toArray 8 (makeBytes 8) = List.replicate 8 0 := by decide
  refine ⟨?_, ?_, ?_, ?_, ?_, ?_, ?_, ?_, ?_⟩
  · intro t ht
    unfold deriveTraceId deriveId at ht
    unfold event.traceID
    cases hu : log.UserId with
    | none => rw [hu] at ht; simp only [Option.some.injEq] at ht; rw [← ht, hz16]
    | some u =>
      rw [hu] at ht
      simp only at ht ⊢
      by_cases he : u = ""
      · rw [if_pos he] at ht ⊢; simp only [Option.some.injEq] at ht; rw [← ht, hz16]
      · rw [if_neg he] at ht ⊢
        split_ifs at ht
        simp only [Option.some.injEq] at ht
        rw [← ht]; rfl
  · intro t ht
    unfold deriveSpanId deriveId at ht
    unfold event.spanID
    cases hu : log.SourceRequestId with
    | none => rw [hu] at ht; simp only [Option.some.injEq] at ht; rw [← ht, hz8]
    | some u =>
      rw [hu] at ht
      simp only at ht ⊢
      by_cases he : u = ""
      · rw [if_pos he] at ht ⊢; simp only [Option.some.injEq] at ht; rw [← ht, hz8]
      · rw [if_neg he] at ht ⊢
        split_ifs at ht
        simp only [Option.some.injEq] at ht
        rw [← ht]; rfl
  · intro h
    unfold event.traceID
    rcases h with h | h <;> rw [h] <;> simp only [if_true] <;> exact hz16
  · intro u hu hne
    unfold event.traceID
    rw [hu]
    simp only [if_neg hne]
    exact toArray_FromString u
  · intro h
    unfold event.spanID
    rcases h with h | h <;> rw [h] <;> simp only [if_true] <;> exact hz8
  · intro r hr hne
    unfold event.spanID
    rw [hr]
    simp only [if_neg hne]
    rfl
  · unfold event.traceID
    cases log.UserId with
    | none => rfl
    | some u =>
      simp only
      split_ifs
      · rfl
      · rw [toArray_FromString]; exact uuid.FromString_length u
  · unfold event.spanID
    cases log.SourceRequestId with
    | none => rfl
    | some r =>
      simp only
      split_ifs
      · rfl
      · unfold toArray
        rw [List.length_take, uuid.FromString_length]
        rfl
  · intro parent sc hmem
    rcases startedContexts_eventOps log with h | ⟨requestId, _, h⟩
    · rw [h] at hmem; simp at hmem
    · rw [h] at hmem
      simp only [List.mem_singleton, Prod.mk.injEq] at hmem
      exact hmem.1

/-- Claim C2, witness. An instance: the record of the scenario in section
8 of the specification. -/
theorem event_ids_eq_reference_witness :
    deriveTraceId scenarioLog.UserId = some (List.replicate 16 17) ∧
      event.traceID scenarioLog = List.replicate 16 17 ∧
      deriveSpanId scenarioLog.SourceRequestId = some (List.replicate 8 34) ∧
      event.spanID scenarioLog = List.replicate 8 34 :=
  ⟨by decide, (event_ids_eq_reference scenarioLog).1 _ (by decide), by decide,
    (event_ids_eq_reference scenarioLog).2.1 _ (by decide)⟩

/-- The calls `event` makes for a record that has every field it
dereferences. -/
theorem event_complete (log : AccessLogWithTelemetry) (h : hasRequiredFields log = true) :
    ∃ method requestId service request result status timestamp duration,
      log.Method = some method ∧ log.RequestId = some requestId ∧
      log.Status = some status ∧ log.Timestamp = some timestamp ∧
      log.Duration = some duration ∧
      eventOps log =
        [SpanOp.Start { traceID := event.traceID log, spanID := event.spanID log }
            { traceID := event.traceID log, spanID := toArray 8 (uuid.FromString requestId).1 }
            method (time.UnixMilli timestamp),
          SpanOp.SetAttributes "requestId" requestId,
          SpanOp.SetAttributes "userId" (match log.UserId with | none => "" | some userId => userId),
          SpanOp.SetAttributes "service" service,
          SpanOp.SetAttributes "method" method,
          SpanOp.SetAttributes "request" request,
          SpanOp.SetAttributes "result" result]
        ++ statusOps status
        ++ [SpanOp.End (Time.Add (time.UnixMilli timestamp)
              (wrap64 (time.Millisecond * duration)))] := by
  unfold hasRequiredFields at h
  simp only [Bool.and_eq_true, Option.isSome_iff_exists] at h
  obtain ⟨⟨⟨⟨⟨⟨⟨⟨method, h1⟩, ⟨timestamp, h2⟩⟩, ⟨requestId, h3⟩⟩, ⟨service, h4⟩⟩,
    ⟨request, h5⟩⟩, ⟨result, h6⟩⟩, ⟨status, h7⟩⟩, ⟨duration, h8⟩⟩ := h
  refine ⟨method, requestId, service, request, result, status, timestamp, duration,
    h1, h3, h7, h2, h8, ?_⟩
  unfold eventOps
  rw [event_to_status log method requestId service request result status timestamp
    h1 h2 h3 h4 h5 h6 h7, h8]

/-- Claim C3, counterexample. The record `malformedLog` has a `UserId` and a
`SourceRequestId` that are non-empty and no UUIDs: `uuid.FromString` returns an
error for both and the reference derivation is fatal; yet `event` returns, and
the span is started, with all-zero ids in the span context passed, and ended. -/
theorem event_malformed_uuid_returns :
    (uuid.FromString "not-a-uuid").2 = false ∧ (uuid.FromString "zz").2 = false ∧
      deriveTraceId malformedLog.UserId = none ∧
      deriveSpanId malformedLog.SourceRequestId = none ∧
      eventReturns malformedLog = true ∧
      startedContexts (eventOps malformedLog) =
        [({ traceID := List.replicate 16 0, spanID := List.replicate 8 0 },
          { traceID := List.replicate 16 0, spanID := List.replicate 8 51 })] ∧
      (endTimes (eventOps malformedLog)).length = 1 := by
  decide

/-- Claim C3, amended. For every record that has the fields `event`
dereferences, `event` returns whether or not `UserId` and `SourceRequestId` are
well-formed UUIDs: the span is started and ended, and where
`uuid.FromString` returns an error the error is discarded and the identifier is
made of the bytes of the UUID returned with it. -/
theorem event_discards_uuid_errors (log : AccessLogWithTelemetry)
    (h : hasRequiredFields log = true) :
    eventReturns log = true ∧
      (∃ sc name ts, (eventOps log).head? = some
        (SpanOp.Start { traceID := event.traceID log, spanID := event.spanID log } sc name ts)) ∧
      (∃ ts, (eventOps log).getLast? = some (SpanOp.End ts)) ∧
      (∀ u, log.UserId = some u → u ≠ "" → (uuid.FromString u).2 = false →
        event.traceID log = (uuid.FromString u).1) ∧
      (∀ r, log.SourceRequestId = some r → r ≠ "" → (uuid.FromString r).2 = false →
        event.spanID log = (uuid.FromString r).1.take 8) := by
  obtain ⟨method, requestId, service, request, result, status, timestamp, duration,
    _, _, _, _, _, hops⟩ := event_complete log h
  refine ⟨by rw [eventReturns_eq, h], ?_, ?_, ?_, ?_⟩
  · rw [hops]; exact ⟨_, _, _, rfl⟩
  · rw [hops]; exact ⟨_, List.getLast?_concat _⟩
  · intro u hu hne _
    unfold event.traceID
    rw [hu]
    simp only [if_neg hne]
    exact toArray_FromString u
  · intro r hr hne _
    unfold event.spanID
    rw [hr]
    simp only [if_neg hne]
    rfl

/-- Claim C3, witness. An instance: the record `malformedLog`. -/
theorem event_discards_uuid_errors_witness :
    hasRequiredFields malformedLog = true ∧ eventReturns malformedLog = true :=
  ⟨by decide, (event_discards_uuid_errors malformedLog (by decide)).1⟩

/-- Claim C4, counterexample. The records `rootLog` and `rootLog2` have the same
`SourceRequestId`, which is nil, and differ in `RequestId` only; the spans the
tracer starts for them have different span ids, neither of them all zero. -/
theorem span_id_differs_for_equal_source :
    rootLog.SourceRequestId = rootLog2.SourceRequestId ∧ rootLog.SourceRequestId = none ∧
      (startedContexts (eventOps rootLog)).map (fun c => c.2.spanID) = [List.replicate 8 51] ∧
      (startedContexts (eventOps rootLog2)).map (fun c => c.2.spanID) = [List.replicate 8 68] := by
  decide

/-- Claim C4, amended. The span id of the span that the tracer starts for a
record is a function of the record's `RequestId` alone: the first eight bytes
of the UUID that `uuid.FromString` returns for it, as the ID generator
installed by `initProvider` returns them.  The span id that is a function of
`SourceRequestId` alone, all zero when that is nil or empty, is the one of the
span context that `event` passes to `tracer.Start` (the parent); the trace id
of both is the one derived from `UserId`. -/
theorem span_id_from_RequestId (log : AccessLogWithTelemetry) :
    (∀ parent sc, (parent, sc) ∈ startedContexts (eventOps log) →
      ∃ requestId, log.RequestId = some requestId ∧
        sc.spanID = (uuid.FromString requestId).1.take 8 ∧
        sc.traceID = event.traceID log ∧
        parent.spanID = event.spanID log ∧ parent.traceID = event.traceID log) ∧
      (∀ log2 : AccessLogWithTelemetry, log.SourceRequestId = log2.SourceRequestId →
        event.spanID log = event.spanID log2) ∧
      (log.SourceRequestId = none ∨ log.SourceRequestId = some "" →
        event.spanID log = List.replicate 8 0) ∧
      (hasRequiredFields log = true → startedContexts (eventOps log) ≠ []) := by
  refine ⟨?_, ?_, ?_, ?_⟩
  · intro parent sc hmem
    rcases startedContexts_eventOps log with h | ⟨requestId, hr, h⟩
    · rw [h] at hmem; simp at hmem
    · rw [h] at hmem
      simp only [List.mem_singleton, Prod.mk.injEq] at hmem
      obtain ⟨hp, hs⟩ := hmem
      subst hp hs
      exact ⟨requestId, hr, rfl, rfl, rfl, rfl⟩
  · intro log2 h
    unfold event.spanID
    rw [h]
  · intro h
    have hz8 : toArray 8 (makeBytes 8) = List.replicate 8 0 := by decide
    unfold event.spanID
    rcases h with h | h <;> rw [h] <;> simp only [if_true] <;> exact hz8
  · intro h
    obtain ⟨method, requestId, service, request, result, status, timestamp, duration,
      _, _, _, _, _, hops⟩ := event_complete log h
    rw [hops]
    simp [startedContexts]

/-- Claim C4, witness. An instance: the span of the scenario record has
the span id made from its `RequestId`, and the parent the one made from its
`SourceRequestId`. -/
theorem span_id_from_RequestId_witness :
    ∃ requestId, scenarioLog.RequestId = some requestId ∧
      List.replicate 8 51 = (uuid.FromString requestId).1.take 8 ∧
      List.replicate 16 17 = event.traceID scenarioLog ∧
      List.replicate 8 34 = event.spanID scenarioLog ∧
      List.replicate 16 17 = event.traceID scenarioLog :=
  (span_id_from_RequestId scenarioLog).1
    { traceID := List.replicate 16 17, spanID := List.replicate 8 34 }
    { traceID := List.replicate 16 17, spanID := List.replicate 8 51 } (by decide)

/-- Claim C5, counterexample. The record `noServiceLog` has the status `"ok"`
and a nil `Service`: `event` starts the span and panics on `*log.Service`
before it reaches the status statements, so `SetStatus` is not called and the
status of the span is not `Ok`. -/
theorem event_status_not_set :
    noServiceLog.Status = some "ok" ∧
      (startedContexts (eventOps noServiceLog)).length = 1 ∧
      setStatusCalls (eventOps noServiceLog) = [] ∧
      spanStatus (eventOps noServiceLog) = Code.Unset ∧
      eventReturns noServiceLog = false := by
  decide

/-- Claim C5, amended. For every record with a non-nil `Status` and non-nil
`Method`, `Timestamp`, `RequestId`, `Service`, `Request` and `Result` (the
fields `event` dereferences before the status statements), `event` sets the
span status by the literal three-way mapping: exactly `"ok"` gives one call
`SetStatus(Ok)`, exactly `"warning"` gives one call `SetStatus(Error)`, and for
every other string `SetStatus` is not called and the status stays `Unset`. -/
theorem event_status_mapping (log : AccessLogWithTelemetry)
    (method requestId service request result status : String) (timestamp : Int)
    (h1 : log.Method = some method) (h2 : log.Timestamp = some timestamp)
    (h3 : log.RequestId = some requestId) (h4 : log.Service = some service)
    (h5 : log.Request = some request) (h6 : log.Result = some result)
    (h7 : log.Status = some status) :
    setStatusCalls (eventOps log) =
        (if status = "ok" then [Code.Ok] else if status = "warning" then [Code.Error] else []) ∧
      spanStatus (eventOps log) =
        (if status = "ok" then Code.Ok else if status = "warning" then Code.Error
          else Code.Unset) := by
  have hne : ¬ ("ok" = "warning") := by decide
  unfold eventOps
  rw [event_to_status log method requestId service request result status timestamp
    h1 h2 h3 h4 h5 h6 h7]
  unfold statusOps
  cases log.Duration with
  | none =>
    by_cases hok : status = "ok"
    · subst hok; simp [setStatusCalls, spanStatus, setStatus, Code.rank]
    · by_cases hw : status = "warning"
      · subst hw; simp [setStatusCalls, spanStatus, setStatus, Code.rank]
      · simp [setStatusCalls, spanStatus, hok, hw]
  | some duration =>
    by_cases hok : status = "ok"
    · subst hok; simp [setStatusCalls, spanStatus, setStatus, Code.rank]
    · by_cases hw : status = "warning"
      · subst hw; simp [setStatusCalls, spanStatus, setStatus, Code.rank]
      · simp [setStatusCalls, spanStatus, hok, hw]

/-- Claim C5, witness. An instance: the scenario record, whose status is
`"ok"`. -/
theorem event_status_mapping_witness :
    setStatusCalls (eventOps scenarioLog) = [Code.Ok] ∧
      spanStatus (eventOps scenarioLog) = Code.Ok :=
  event_status_mapping scenarioLog "describe" "33333333-3333-3333-3333-333333333333"
    "inventory" "" "" "ok" 1700000000000 rfl rfl rfl rfl rfl rfl rfl

/-- Claim C6, counterexample. The record `longLog` has `Timestamp` 0 and
`Duration` 9223372036855 milliseconds: `time.Millisecond * time.Duration(d)`
overflows `int64`, and the end timestamp that `event` gives the span lies
9223372036854551616 nanoseconds before the start timestamp. -/
theorem event_duration_overflow :
    longLog.Timestamp = some 0 ∧ longLog.Duration = some 9223372036855 ∧
      (startTimes (eventOps longLog)).map Time.unixNanoExact = [0] ∧
      (endTimes (eventOps longLog)).map Time.unixNanoExact = [-9223372036854551616] ∧
      (-9223372036854551616 : Int) - 0 ≠ 9223372036855 * 1000000 := by
  decide

/-- Claim C6, amended. For every record on which `event` returns, with an
`int64` `Timestamp` and a `Duration` from 0 to 9223372036854 milliseconds (the
largest whose count of nanoseconds is an `int64`), the start timestamp given
to the span is `Timestamp` milliseconds after the epoch, the end timestamp is
`time.UnixMilli(Timestamp).Add(time.Millisecond * time.Duration(Duration))`,
and the end minus the start is exactly `Duration` milliseconds. -/
theorem event_duration_exact (log : AccessLogWithTelemetry) (timestamp duration : Int)
    (h : hasRequiredFields log = true)
    (ht : log.Timestamp = some timestamp) (hd : log.Duration = some duration)
    (hi : isInt64 timestamp) (h0 : 0 ≤ duration) (h1 : duration ≤ 9223372036854) :
    startTimes (eventOps log) = [time.UnixMilli timestamp] ∧
      endTimes (eventOps log) =
        [Time.Add (time.UnixMilli timestamp) (wrap64 (time.Millisecond * duration))] ∧
      (time.UnixMilli timestamp).unixNanoExact = timestamp * 1000000 ∧
      (Time.Add (time.UnixMilli timestamp) (wrap64 (time.Millisecond * duration))).unixNanoExact
        - (time.UnixMilli timestamp).unixNanoExact = duration * 1000000 := by
  obtain ⟨method, requestId, service, request, result, status, timestamp1, duration1,
    _, _, _, ht1, hd1, hops⟩ := event_complete log h
  rw [ht] at ht1
  rw [hd] at hd1
  simp only [Option.some.injEq] at ht1 hd1
  subst ht1 hd1
  obtain ⟨_, _, he0, he1, hnano⟩ := UnixMilli_spec timestamp hi
  have hw : wrap64 (time.Millisecond * duration) = duration * 1000000 := by
    unfold time.Millisecond
    rw [wrap64_eq (by omega) (by omega)]
    ring
  have hadd := Add_spec (time.UnixMilli timestamp) (duration * 1000000) he0 he1
    ⟨by omega, by omega⟩
  refine ⟨?_, ?_, hnano, ?_⟩
  · rw [hops]
    unfold statusOps
    split_ifs <;> simp [startTimes]
  · rw [hops]
    unfold statusOps
    split_ifs <;> simp [endTimes]
  · rw [hw, hadd]
    ring

/-- Claim C6, witness. An instance: the scenario record, with `Timestamp`
1700000000000 and `Duration` 50, ends at 1700000000050 milliseconds. -/
theorem event_duration_exact_witness :
    (endTimes (eventOps scenarioLog)).map Time.unixNanoExact = [1700000000050 * 1000000] ∧
      (Time.Add (time.UnixMilli 1700000000000) (wrap64 (time.Millisecond * 50))).unixNanoExact
        - (time.UnixMilli 1700000000000).unixNanoExact = 50 * 1000000 :=
  ⟨by decide,
    (event_duration_exact scenarioLog 1700000000000 50 (by decide) rfl rfl (by decide)
      (by decide) (by decide)).2.2.2⟩

/-! ### Facts about the loop of `main` -/

theorem fetches_append (xs ys : List Action) : fetches (xs ++ ys) = fetches xs ++ fetches ys := by
  induction xs with
  | nil => rfl
  | cons x xs ih => cases x <;> simp [fetches, ih]

theorem eventCalls_append (xs ys : List Action) :
    eventCalls (xs ++ ys) = eventCalls xs ++ eventCalls ys := by
  induction xs with
  | nil => rfl
  | cons x xs ih => cases x <;> simp [eventCalls, ih]

/-- The calls of `event` contain no fetch. -/
theorem fetches_eventAll (items : List AccessLogWithTelemetry) :
    fetches (eventAll items).1 = [] := by
  induction items with
  | nil => rfl
  | cons item items ih =>
    unfold eventAll
    split <;> simp [fetches, ih]

/-- When `event` returns on every record of a page, it is called on each of
them, once and in order. -/
theorem eventAll_of_required (items : List AccessLogWithTelemetry)
    (h : ∀ r ∈ items, hasRequiredFields r = true) :
    (eventAll items).2 = true ∧ eventCalls (eventAll items).1 = items := by
  induction items with
  | nil => exact ⟨rfl, rfl⟩
  | cons item items ih =>
    have h1 : eventReturns item = true := by
      rw [eventReturns_eq]; exact h item (List.mem_cons_self _ _)
    have h2 := ih (fun r hr => h r (List.mem_cons_of_mem _ hr))
    unfold eventAll
    rw [if_pos h1]
    exact ⟨h2.1, by simp [eventCalls, h2.2]⟩

/-- The fetch calls of the loop follow the cursor, from every state. -/
theorem fetchLoop_follows {σ : Type} (env : Env σ) (flags : Flags) :
    ∀ (fuel : Nat) (st : σ) (pageToken : Option String) (scanSize rows : Int),
      FollowsCursor pageToken (fetches (fetchLoop env flags fuel st pageToken scanSize rows).1) := by
  intro fuel
  induction fuel with
  | zero => intro st pageToken scanSize rows; simp [fetchLoop, fetches, FollowsCursor]
  | succ fuel ih =>
    intro st pageToken scanSize rows
    unfold fetchLoop
    cases hb : env.timeParse flags.begin with
    | none => simp [fetches, FollowsCursor]
    | some b =>
    cases he : env.timeParse flags.end_ with
    | none => simp [fetches, FollowsCursor]
    | some e =>
    simp only
    generalize hq : env.QueryAccessLogWithTelemetry st _ = answer
    obtain ⟨resp, st1⟩ := answer
    cases resp with
    | none => simp [fetches, FollowsCursor, queryRequest]
    | some result =>
    simp only
    split
    · cases hs : result.ScanSize with
      | none => simp [fetches, FollowsCursor, fetches_eventAll, queryRequest]
      | some size =>
      cases ht : result.TotalCount with
      | none => simp [fetches, FollowsCursor, fetches_eventAll, queryRequest]
      | some total =>
      cases hn : result.NextPageToken with
      | none => simp [fetches, FollowsCursor, fetches_eventAll, queryRequest]
      | some token =>
        have hrest := ih st1 (some token) (wrap64 (scanSize + size)) total
        simp only [fetches, List.append_eq, fetches_append, fetches_eventAll, List.nil_append,
          FollowsCursor]
        refine ⟨rfl, ?_⟩
        right
        exact ⟨result, token, rfl, hn, hrest⟩
    · simp [fetches, FollowsCursor, fetches_eventAll, queryRequest]

/-- The fetch calls of a run of `main` are those of its loop, which is reached
when the collector and the log store accepted the connection. -/
theorem fetches_main {σ : Type} (env : Env σ) (flags : Flags) (fuel : Nat) :
    fetches (main env flags fuel).1 =
      if env.initProvider flags.host flags.port = true ∧ env.Connect = true then
        fetches (fetchLoop env flags fuel env.init none 0 0).1
      else [] := by
  unfold main
  by_cases h1 : env.initProvider flags.host flags.port = true
  · by_cases h2 : env.Connect = true
    · rw [if_pos h1, if_pos h2, if_pos ⟨h1, h2⟩]
      simp only
      split
      · split <;> simp [fetches, fetches_append]
      · simp [fetches, fetches_append]
      · simp [fetches, fetches_append]
    · rw [if_pos h1, if_neg h2, if_neg (fun h => h2 h.2)]
      simp [fetches]
  · rw [if_neg h1, if_neg (fun h => h1 h.1)]
    simp [fetches]

/-- The first iteration of the loop sends its request with the page token of
the state, when the time strings parse. -/
theorem fetchLoop_first {σ : Type} (env : Env σ) (flags : Flags) (fuel : Nat) (st : σ)
    (pageToken : Option String) (scanSize rows b e : Int)
    (hb : env.timeParse flags.begin = some b) (he : env.timeParse flags.end_ = some e) :
    ∃ req rest, req.PageToken = pageToken ∧
      fetches (fetchLoop env flags (fuel + 1) st pageToken scanSize rows).1
        = (req, (env.QueryAccessLogWithTelemetry st req).1) :: rest := by
  unfold fetchLoop
  simp only [hb, he]
  generalize hreq : queryRequest flags b e pageToken = req
  have hp : req.PageToken = pageToken := by rw [← hreq]; rfl
  generalize hq : env.QueryAccessLogWithTelemetry st req = answer
  obtain ⟨resp, st1⟩ := answer
  cases resp with
  | none => exact ⟨req, [], hp, by simp [fetches, hq]⟩
  | some result =>
    simp only
    split
    · cases result.ScanSize with
      | none => exact ⟨req, _, hp, by simp only [fetches, hq]; rfl⟩
      | some size =>
      cases result.TotalCount with
      | none => exact ⟨req, _, hp, by simp only [fetches, hq]; rfl⟩
      | some total =>
      cases result.NextPageToken with
      | none => exact ⟨req, _, hp, by simp only [fetches, hq]; rfl⟩
      | some token => exact ⟨req, _, hp, by simp only [fetches, hq]; rfl⟩
    · exact ⟨req, _, hp, by simp only [fetches, hq]; rfl⟩

/-- Claim C8, counterexample. With the default flags `begin` and `end` are
empty, which is no RFC 3339 date-time; against collaborators that accept the
connections, `main` dials the collector (`initProvider`) and connects the
session before it aborts. -/
theorem main_connects_before_abort :
    parseNewYear defaultFlags.begin = none ∧
      main (stubEnv parseNewYear [lastPage]) defaultFlags 3 =
        ([Action.initProvider "localhost" 4317, Action.Connect, Action.shutdown],
          Outcome.panicked) := by
  decide

/-- Claim C8, amended. For every run of `main` in which the `begin` or the `end`
flag is not a valid date-time, the run aborts before any
`QueryAccessLogWithTelemetry` call is made.  The time strings are parsed while
the first request is built, after `initProvider` and `session.Connect()`: when
both succeed the run consists of these two calls and the deferred shutdown. -/
theorem main_bad_time_aborts {σ : Type} (env : Env σ) (flags : Flags) (fuel : Nat)
    (hbad : env.timeParse flags.begin = none ∨ env.timeParse flags.end_ = none)
    (hfuel : 0 < fuel) :
    (main env flags fuel).2 = Outcome.panicked ∧
      fetches (main env flags fuel).1 = [] ∧
      (env.initProvider flags.host flags.port = true → env.Connect = true →
        (main env flags fuel).1 =
          [Action.initProvider flags.host flags.port, Action.Connect, Action.shutdown]) := by
  obtain ⟨n, rfl⟩ : ∃ n, fuel = n + 1 := ⟨fuel - 1, by omega⟩
  have hloop : fetchLoop env flags (n + 1) env.init none 0 0 = ([], Outcome.panicked) := by
    unfold fetchLoop
    rcases hbad with h | h
    · simp only [h]
    · cases hb : env.timeParse flags.begin <;> simp only [h]
  refine ⟨?_, ?_, ?_⟩
  · unfold main
    rw [hloop]
    split_ifs <;> rfl
  · rw [fetches_main, hloop]
    split_ifs <;> rfl
  · intro h1 h2
    unfold main
    rw [hloop, if_pos h1, if_pos h2]
    rfl

/-- Claim C8, witness. An instance: a run with the default flags. -/
theorem main_bad_time_aborts_witness :
    (main (stubEnv parseNewYear [lastPage]) defaultFlags 3).2 = Outcome.panicked ∧
      fetches (main (stubEnv parseNewYear [lastPage]) defaultFlags 3).1 = [] :=
  ⟨(main_bad_time_aborts (stubEnv parseNewYear [lastPage]) defaultFlags 3
      (Or.inl (by decide)) (by decide)).1,
    (main_bad_time_aborts (stubEnv parseNewYear [lastPage]) defaultFlags 3
      (Or.inl (by decide)) (by decide)).2.1⟩

/-! ### Draining the pages -/

theorem wrap64_wrap64_add (a x : Int) : wrap64 (wrap64 a + x) = wrap64 (a + x) := by
  unfold wrap64
  omega

/-- Adding from the left with wraparound gives the wrapped sum. -/
theorem foldl_wrap64 (xs : List Int) :
    ∀ acc, xs.foldl (fun acc x => wrap64 (acc + x)) (wrap64 acc) = wrap64 (acc + xs.sum) := by
  induction xs with
  | nil => intro acc; simp
  | cons x xs ih =>
    intro acc
    simp only [List.foldl_cons, List.sum_cons]
    rw [wrap64_wrap64_add, ih, add_assoc]

/-- The `int64` sum is the sum reduced to `int64`. -/
theorem int64Sum_eq (xs : List Int) : int64Sum xs = wrap64 xs.sum := by
  have h := foldl_wrap64 xs 0
  have h0 : wrap64 0 = 0 := by decide
  rw [h0, zero_add] at h
  exact h

/-- The loop drains the pages, from every state. -/
theorem fetchLoop_drains {σ : Type} (env : Env σ) (flags : Flags) (b e total : Int)
    (last : QueryAccessLogWithTelemetryResult)
    (hb : env.timeParse flags.begin = some b) (he : env.timeParse flags.end_ = some e)
    (hlast : last.NextPageToken = none) (htotal : last.TotalCount = some total) :
    ∀ (pages : List QueryAccessLogWithTelemetryResult) (fuel : Nat) (st : σ)
      (pageToken : Option String) (scanSize rows : Int),
      Answers env st (pages ++ [last]) →
      (∀ p ∈ pages, p.NextPageToken ≠ none) →
      (∀ p ∈ pages ++ [last], p.ScanSize ≠ none ∧ p.TotalCount ≠ none) →
      (∀ p ∈ pages ++ [last], ∀ r ∈ p.Items, hasRequiredFields r = true) →
      pages.length < fuel →
      eventCalls (fetchLoop env flags fuel st pageToken scanSize rows).1
          = (pages ++ [last]).flatMap (fun p => p.Items) ∧
        (fetches (fetchLoop env flags fuel st pageToken scanSize rows).1).map (fun f => f.2)
          = (pages ++ [last]).map some ∧
        (fetchLoop env flags fuel st pageToken scanSize rows).2
          = Outcome.done
              ((scanSizes (pages ++ [last])).foldl (fun acc x => wrap64 (acc + x)) scanSize)
              total := by
  intro pages
  induction pages with
  | nil =>
    intro fuel st pageToken scanSize rows hans _ hsize hev hfuel
    obtain ⟨n, rfl⟩ : ∃ n, fuel = n + 1 := ⟨fuel - 1, by simp at hfuel; omega⟩
    have hq := (hans (queryRequest flags b e pageToken)).1
    obtain ⟨size, hs⟩ := Option.ne_none_iff_exists'.1 (hsize last (by simp)).1
    obtain ⟨hevs, hcalls⟩ := eventAll_of_required last.Items (hev last (by simp))
    unfold fetchLoop
    simp only [hb, he]
    generalize hans1 : env.QueryAccessLogWithTelemetry st (queryRequest flags b e pageToken)
      = answer at hq
    obtain ⟨resp, st1⟩ := answer
    simp only at hq
    subst hq
    simp only [hevs, if_true, hs, htotal, hlast]
    simp [eventCalls, fetches, fetches_eventAll, hcalls, scanSizes, hs]
  | cons page pages ih =>
    intro fuel st pageToken scanSize rows hans hnext hsize hev hfuel
    obtain ⟨n, rfl⟩ : ∃ n, fuel = n + 1 := ⟨fuel - 1, by simp at hfuel; omega⟩
    have hq := (hans (queryRequest flags b e pageToken)).1
    have hans2 := (hans (queryRequest flags b e pageToken)).2
    obtain ⟨size, hs⟩ := Option.ne_none_iff_exists'.1 (hsize page (by simp)).1
    obtain ⟨count, hc⟩ := Option.ne_none_iff_exists'.1 (hsize page (by simp)).2
    obtain ⟨token, ht⟩ := Option.ne_none_iff_exists'.1 (hnext page (by simp))
    obtain ⟨hevs, hcalls⟩ := eventAll_of_required page.Items (hev page (by simp))
    unfold fetchLoop
    simp only [hb, he]
    generalize hans1 : env.QueryAccessLogWithTelemetry st (queryRequest flags b e pageToken)
      = answer at hq hans2
    obtain ⟨resp, st1⟩ := answer
    simp only at hq hans2
    subst hq
    simp only [hevs, if_true, hs, hc, ht]
    obtain ⟨h1, h2, h3⟩ := ih n st1 (some token) (wrap64 (scanSize + size)) count hans2
      (fun p hp => hnext p (List.mem_cons_of_mem _ hp))
      (fun p hp => hsize p (by simp at hp ⊢; tauto))
      (fun p hp => hev p (by simp at hp ⊢; tauto))
      (by simp at hfuel; omega)
    refine ⟨?_, ?_, ?_⟩
    · simp only [List.append_eq, eventCalls, eventCalls_append, hcalls, h1, List.cons_append,
        List.flatMap_cons]
    · simp only [List.append_eq, fetches, fetches_append, fetches_eventAll, List.nil_append,
        List.map_cons, h2, List.cons_append]
    · rw [h3]
      simp [scanSizes, hs]

/-- Claim C7. In every run of `main` the fetch calls follow the cursor: the first
query is sent with a nil `PageToken`, every further query follows a response
that carried a `NextPageToken` and is sent with exactly that token, and no
query follows a response whose `NextPageToken` is nil; so when the first
response has no `NextPageToken`, exactly one fetch call is made.  The first
query is sent whenever the run reaches the loop with time strings that
parse; and against a log client that answers with a list of pages, none of
which makes the loop panic, every page is fetched, once and in order. -/
theorem main_fetches_follow_cursor {σ : Type} (env : Env σ) (flags : Flags) (fuel : Nat) :
    FollowsCursor none (fetches (main env flags fuel).1) ∧
      (∀ req result rest, fetches (main env flags fuel).1 = (req, some result) :: rest →
        result.NextPageToken = none → (fetches (main env flags fuel).1).length = 1) ∧
      (∀ b e, env.initProvider flags.host flags.port = true → env.Connect = true →
        env.timeParse flags.begin = some b → env.timeParse flags.end_ = some e → 0 < fuel →
        ∃ req rest, req.PageToken = none ∧
          fetches (main env flags fuel).1
            = (req, (env.QueryAccessLogWithTelemetry env.init req).1) :: rest) ∧
      (∀ pages last b e, env.initProvider flags.host flags.port = true → env.Connect = true →
        env.timeParse flags.begin = some b → env.timeParse flags.end_ = some e →
        Answers env env.init (pages ++ [last]) →
        (∀ p ∈ pages, p.NextPageToken ≠ none) → last.NextPageToken = none →
        (∀ p ∈ pages ++ [last], p.ScanSize ≠ none ∧ p.TotalCount ≠ none) →
        (∀ p ∈ pages ++ [last], ∀ r ∈ p.Items, hasRequiredFields r = true) →
        pages.length < fuel →
        (fetches (main env flags fuel).1).map (fun f => f.2) = (pages ++ [last]).map some) := by
  have hfollow : FollowsCursor none (fetches (main env flags fuel).1) := by
    rw [fetches_main]
    split
    · exact fetchLoop_follows env flags fuel env.init none 0 0
    · simp [FollowsCursor]
  refine ⟨hfollow, ?_, ?_, ?_⟩
  · intro req result rest h hnil
    rw [h] at hfollow ⊢
    simp only [FollowsCursor] at hfollow
    rcases hfollow.2 with hrest | ⟨result1, next, hres, hnext, _⟩
    · rw [hrest]; rfl
    · simp only [Option.some.injEq] at hres
      rw [← hres, hnil] at hnext
      exact absurd hnext (by simp)
  · intro b e h1 h2 hb he hfuel
    rw [fetches_main, if_pos ⟨h1, h2⟩]
    obtain ⟨n, rfl⟩ : ∃ n, fuel = n + 1 := ⟨fuel - 1, by omega⟩
    exact fetchLoop_first env flags n env.init none 0 0 b e hb he
  · intro pages last b e h1 h2 hb he hans hnext hlast hsize hev hfuel
    obtain ⟨total, htotal⟩ := Option.ne_none_iff_exists'.1 (hsize last (by simp)).2
    rw [fetches_main, if_pos ⟨h1, h2⟩]
    exact (fetchLoop_drains env flags b e total last hb he hlast htotal pages fuel env.init
      none 0 0 hans hnext hsize hev hfuel).2.1

/-- Claim C7, witness. An instance: against a log store whose first
response has no `NextPageToken`, `main` makes one fetch call, with a nil
`PageToken`. -/
theorem main_fetches_follow_cursor_witness :
    (fetches (main (stubEnv parseNewYear [lastPage]) validFlags 3).1).map
        (fun f => (f.1.PageToken, f.2)) = [(none, some lastPage)] ∧
      (fetches (main (stubEnv parseNewYear [lastPage]) validFlags 3).1).length = 1 :=
  ⟨by decide,
    (main_fetches_follow_cursor (stubEnv parseNewYear [lastPage]) validFlags 3).2.1
      (queryRequest validFlags 1704067200000 1704067200000 none) lastPage [] (by decide)
      (by decide)⟩

/-- The stub client answers with the pages it holds. -/
theorem answers_stubEnv (parse : String → Option Int)
    (init pages : List QueryAccessLogWithTelemetryResult) :
    Answers (stubEnv parse init) pages pages := by
  induction pages with
  | nil => trivial
  | cons page pages ih => intro req; exact ⟨rfl, ih⟩

/-- Claim C1, counterexample. The stub answers with the single page
`brokenPage`, which has two records, no `NextPageToken` and non-nil `ScanSize`
and `TotalCount`; its first record has a nil `Method`, so `event` panics on it:
the loop calls `event` once for two records and does not end with `rows = 2`,
the run aborts.  And with the default flags, whose `begin` is no date-time,
the loop aborts before its first query, whatever the pages. -/
theorem fetchLoop_aborts_on_broken_record :
    brokenPage.NextPageToken = none ∧ brokenPage.ScanSize = some 200 ∧
      brokenPage.TotalCount = some 2 ∧ brokenPage.Items.length = 2 ∧
      fetchLoop (stubEnv parseNewYear [brokenPage]) validFlags 3 [brokenPage] none 0 0 =
        ([Action.Query (queryRequest validFlags 1704067200000 1704067200000 none)
            (some brokenPage), Action.event {}], Outcome.panicked) ∧
      fetchLoop (stubEnv parseNewYear [lastPage]) defaultFlags 3 [lastPage] none 0 0 =
        ([], Outcome.panicked) := by
  decide

/-- Claim C1, amended. Let the log client answer the successive calls of the
loop of `main` with the pages `pages ++ [last]`, every page of `pages` with a
non-nil `NextPageToken` and `last` with none, each with non-nil `ScanSize` and
`TotalCount`; let the `begin` and `end` flags parse, and let every record have
the fields that `event` dereferences.  Then the loop, started as `main` starts
it, calls `event` exactly once per record, in the order of the concatenation of
the pages' `Items`, fetches each page once, and ends with `rows` equal to the
`TotalCount` of the last page and `scanSize` equal to the `int64` sum of the
pages' `ScanSize`. -/
theorem fetchLoop_drains_pages {σ : Type} (env : Env σ) (flags : Flags) (st : σ)
    (pages : List QueryAccessLogWithTelemetryResult) (last : QueryAccessLogWithTelemetryResult)
    (fuel : Nat) (b e total : Int)
    (hans : Answers env st (pages ++ [last]))
    (hnext : ∀ p ∈ pages, p.NextPageToken ≠ none) (hlast : last.NextPageToken = none)
    (hsize : ∀ p ∈ pages ++ [last], p.ScanSize ≠ none ∧ p.TotalCount ≠ none)
    (htotal : last.TotalCount = some total)
    (hb : env.timeParse flags.begin = some b) (he : env.timeParse flags.end_ = some e)
    (hev : ∀ p ∈ pages ++ [last], ∀ r ∈ p.Items, hasRequiredFields r = true)
    (hfuel : pages.length < fuel) :
    eventCalls (fetchLoop env flags fuel st none 0 0).1
        = (pages ++ [last]).flatMap (fun p => p.Items) ∧
      (eventCalls (fetchLoop env flags fuel st none 0 0).1).length
        = ((pages ++ [last]).map (fun p => p.Items.length)).sum ∧
      (fetches (fetchLoop env flags fuel st none 0 0).1).map (fun f => f.2)
        = (pages ++ [last]).map some ∧
      (fetchLoop env flags fuel st none 0 0).2
        = Outcome.done (int64Sum (scanSizes (pages ++ [last]))) total ∧
      int64Sum (scanSizes (pages ++ [last])) = wrap64 (scanSizes (pages ++ [last])).sum := by
  obtain ⟨h1, h2, h3⟩ := fetchLoop_drains env flags b e total last hb he hlast htotal pages fuel
    st none 0 0 hans hnext hsize hev hfuel
  refine ⟨h1, ?_, h2, h3, int64Sum_eq _⟩
  rw [h1, List.length_flatMap]
  rfl

/-- Claim C1, witness. An instance: two pages of two records and one
record; `event` is called on the three records in order and the loop ends with
`rows = 3` and `scanSize = 500`. -/
theorem fetchLoop_drains_pages_witness :
    eventCalls (fetchLoop (stubEnv parseNewYear [firstPage, lastPage]) validFlags 2
        [firstPage, lastPage] none 0 0).1 = [scenarioLog, rootLog, rootLog2] ∧
      (fetchLoop (stubEnv parseNewYear [firstPage, lastPage]) validFlags 2
        [firstPage, lastPage] none 0 0).2 = Outcome.done 500 3 :=
  ⟨(fetchLoop_drains_pages (stubEnv parseNewYear [firstPage, lastPage]) validFlags
      [firstPage, lastPage] [firstPage] lastPage 2 1704067200000 1704067200000 3
      (answers_stubEnv _ _ _) (by decide) (by decide) (by decide) (by decide) (by decide)
      (by decide) (by decide) (by decide)).1,
    (fetchLoop_drains_pages (stubEnv parseNewYear [firstPage, lastPage]) validFlags
      [firstPage, lastPage] [firstPage] lastPage 2 1704067200000 1704067200000 3
      (answers_stubEnv _ _ _) (by decide) (by decide) (by decide) (by decide) (by decide)
      (by decide) (by decide) (by decide)).2.2.2.1⟩

end Gs2Telemetry

